import Mathlib

/-!
Verification of the kiro.rs gateway against its specification.

This file gives a shallow embedding, in Lean 4, of the parts of the
kiro.rs code base that the specification's claims are about:

* the input-compression pipeline (src/anthropic/compressor.rs),
* the Anthropic → upstream protocol converter (src/anthropic/converter.rs),
* the credential-pool state machine (src/kiro/token_manager.rs),
* the upstream call engine's retry classifier (src/kiro/provider.rs).

Rust strings are modelled as lists of Unicode scalar values
(`RStr := List Char`); `String::len` (a byte count in Rust) is modelled by
`byteLen`, which sums the UTF-8 encoded size of each character, and
`str::chars().count()` by `List.length`.  Byte indices returned by
`str::find` on ASCII needles correspond one-to-one to character positions
at the same boundary, so slicing is modelled with `List.take`/`List.drop`.

JSON values (`serde_json::Value`) are modelled by the inductive `JsonV`;
objects are association lists in iteration order (serde's default map is
an ordered map with unique keys).  Numbers are modelled as integers: no
claim in scope constructs or inspects a float.  The JSON *parser* is an
external crate, so functions that parse a wire string carry the parse
result as an explicit `Option JsonV` field next to the raw text.
-/

set_option maxRecDepth 40000

/-! ## Rust string model -/

/-- Rust `str`/`String` as a list of Unicode scalar values. -/
abbrev RStr := List Char

/-- UTF-8 encoded size of one character, as Rust `char::len_utf8`. -/
def charBytes (c : Char) : Nat :=
  if c.toNat < 0x80 then 1
  else if c.toNat < 0x800 then 2
  else if c.toNat < 0x10000 then 3
  else 4

/-- Rust `str::len`: the UTF-8 byte length. -/
def byteLen (s : RStr) : Nat := (s.map charBytes).sum

/-- Decimal rendering of a `Nat`, as Rust `format!` renders a `usize`. -/
def natStr (n : Nat) : RStr := (Nat.repr n).toList

/-- Decimal rendering of an `Int`, as Rust `format!` renders an `i32`. -/
def intStr (n : Int) : RStr := (Int.repr n).toList

/-- Rust `str::split(sep)`: splits at every separator, keeping empty
segments (so a trailing separator yields a trailing empty segment). -/
def splitOnChar (sep : Char) (s : RStr) : List RStr :=
  match s with
  | [] => [[]]
  | c :: rest =>
    let r := splitOnChar sep rest
    if c = sep then [] :: r
    else
      match r with
      | [] => [[c]]
      | h :: t => (c :: h) :: t

/-- Rust `str::trim_end` (whitespace per `char::is_whitespace`; the model
uses Lean's `Char.isWhitespace`, which agrees on ASCII). -/
def trimEnd (s : RStr) : RStr := (s.reverse.dropWhile Char.isWhitespace).reverse

/-- Rust `str::trim_start`. -/
def trimStart (s : RStr) : RStr := s.dropWhile Char.isWhitespace

/-- Rust `str::trim`. -/
def trimStr (s : RStr) : RStr := trimEnd (trimStart s)

/-- Byte index (equivalently, character position at the same boundary) of
the first occurrence of `pat`, as Rust `str::find` for ASCII patterns. -/
def findSub (pat : RStr) (s : RStr) : Option Nat :=
  (List.range (s.length + 1)).find? (fun i => pat.isPrefixOf (s.drop i))

/-- Rust `str::contains`. -/
def containsSub (s pat : RStr) : Bool := (findSub pat s).isSome

/-- Rust `u8::to_ascii_lowercase` lifted to characters: ASCII letters are
lowered, everything else is unchanged (`str::to_ascii_lowercase`). -/
def asciiLowerChar (c : Char) : Char :=
  if 65 ≤ c.toNat ∧ c.toNat ≤ 90 then Char.ofNat (c.toNat + 32) else c

/-- Rust `str::to_ascii_lowercase`. -/
def asciiLower (s : RStr) : RStr := s.map asciiLowerChar

/-- Rust `str::to_lowercase` restricted to ASCII input (the model maps
`Char.toLower` over the characters; the model strings in scope are ASCII,
where this agrees with Unicode lowercasing). -/
def lowerStr (s : RStr) : RStr := s.map Char.toLower

/-- Longest prefix of `s` whose UTF-8 byte length is at most `n`; `&s[..i]`
for `i = s.floor_char_boundary(n)` in Rust. -/
def takeBytes (n : Nat) (s : RStr) : RStr :=
  match s with
  | [] => []
  | c :: rest => if charBytes c ≤ n then c :: takeBytes (n - charBytes c) rest else []

/-- Strip one trailing carriage return, used by the `str::lines` model. -/
def stripCR (l : RStr) : RStr := if l.getLast? = some '\x0d' then l.dropLast else l

/-- Rust `str::lines`: split at `\n`, drop a final empty segment produced
by a trailing newline, and strip a `\r` preceding each split point. -/
def rustLines (s : RStr) : List RStr :=
  let parts := splitOnChar '\n' s
  match parts.getLast? with
  | some [] => parts.dropLast.map stripCR
  | _ => parts.dropLast.map stripCR ++ parts.getLast?.toList

/-! ## JSON model (`serde_json::Value` with integer numbers) -/

/-- Model of `serde_json::Value`.  Object fields are kept in map iteration
order with unique keys. -/
inductive JsonV : Type where
  | null : JsonV
  | bool (b : Bool) : JsonV
  | num (n : Int) : JsonV
  | str (s : RStr) : JsonV
  | arr (xs : List JsonV) : JsonV
  | obj (fields : List (RStr × JsonV)) : JsonV

instance : Inhabited JsonV := ⟨JsonV.null⟩

theorem sizeOf_field_snd_lt {p : RStr × JsonV} {fs : List (RStr × JsonV)} (h : p ∈ fs) :
    sizeOf p.2 < 1 + sizeOf fs := by
  have h1 := List.sizeOf_lt_of_mem h
  have h2 : sizeOf p.2 < sizeOf p := by
    obtain ⟨a, b⟩ := p
    simp only [Prod.mk.sizeOf_spec]
    omega
  omega

/-- Lookup in a JSON object's field list (`serde_json::Map::get`). -/
def jsonGet (fields : List (RStr × JsonV)) (key : RStr) : Option JsonV :=
  match fields with
  | [] => none
  | p :: rest => if p.1 = key then some p.2 else jsonGet rest key

/-- Value of a field as a string (`Value::get(..).and_then(as_str)`). -/
def jsonGetStr (fields : List (RStr × JsonV)) (key : RStr) : Option RStr :=
  match jsonGet fields key with
  | some (.str s) => some s
  | _ => none

/-- Insert into a JSON object's field list (`serde_json::Map::insert`):
replace the value at an existing key, otherwise append the pair. -/
def jsonInsert (fields : List (RStr × JsonV)) (key : RStr) (v : JsonV) :
    List (RStr × JsonV) :=
  if fields.any (fun p => p.1 = key) then
    fields.map (fun p => if p.1 = key then (p.1, v) else p)
  else fields ++ [(key, v)]

/-- Remove from a JSON object's field list (`serde_json::Map::remove`),
returning the removed value if present. -/
def jsonRemove (fields : List (RStr × JsonV)) (key : RStr) :
    Option JsonV × List (RStr × JsonV) :=
  (jsonGet fields key, fields.filter (fun p => ¬ p.1 = key))

/-- Lowercase hex digit, as used by serde_json's control-character escapes. -/
def hexDigit (n : Nat) : Char := if n < 10 then Char.ofNat (48 + n) else Char.ofNat (87 + n)

/-- Escaping of one character inside a JSON string literal, exactly the
escape set of serde_json's serializer. -/
def jsonEscapeChar (c : Char) : RStr :=
  if c = '"' then ['\\', '"']
  else if c = '\\' then ['\\', '\\']
  else if c = '\x08' then ['\\', 'b']
  else if c = '\x0c' then ['\\', 'f']
  else if c = '\n' then ['\\', 'n']
  else if c = '\x0d' then ['\\', 'r']
  else if c = '\t' then ['\\', 't']
  else if c.toNat < 0x20 then
    '\\' :: 'u' :: '0' :: '0' :: [hexDigit (c.toNat / 16), hexDigit (c.toNat % 16)]
  else [c]

/-- Escaped body of a JSON string literal. -/
def jsonEscape (s : RStr) : RStr := (s.map jsonEscapeChar).flatten

/-- Compact serialization, as `serde_json::to_string` /
`Display for serde_json::Value` (no spaces, fields in map order). -/
def jsonChars : JsonV → RStr
  | .null => "null".toList
  | .bool true => "true".toList
  | .bool false => "false".toList
  | .num n => intStr n
  | .str s => '"' :: jsonEscape s ++ ['"']
  | .arr xs => '[' :: List.intercalate [','] (xs.attach.map (fun v => jsonChars v.1)) ++ [']']
  | .obj fs =>
      Char.ofNat 123 ::
        List.intercalate [',']
          (fs.attach.map (fun p => '"' :: jsonEscape p.1.1 ++ '"' :: ':' :: jsonChars p.1.2)) ++
        [Char.ofNat 125]
  decreasing_by
  · have h := List.sizeOf_lt_of_mem v.2
    simp only [JsonV.arr.sizeOf_spec]
    omega
  · have h := sizeOf_field_snd_lt p.2
    simp only [JsonV.obj.sizeOf_spec]
    omega

/-! ## Upstream conversation model

The structures below are the upstream request schema from
`crate::kiro::model::requests::{conversation, tool}`.  That module is not
part of the sources in scope, so these definitions are modelled from the
spec (section 3, "ConversationState") and from how the converter and the
compressor construct and traverse the values.  Wrapper structs
(`HistoryUserMessage`, `CurrentMessage`) that only hold a single field are
flattened away. -/

/-- Modelled from the spec: `ToolUseEntry{tool_use_id, name, input}` as
carried by an assistant message. -/
structure ToolUseEntry where
  tool_use_id : RStr
  name : RStr
  input : JsonV

/-- Modelled from the spec: a `tool_result` carried by a user message; its
`content` is an array of JSON objects, text fragments being objects with a
string-valued `"text"` field. -/
structure ToolResult where
  tool_use_id : RStr
  content : List (List (RStr × JsonV))
  status : Option RStr

/-- Modelled from the spec: `ToolResult::success(id, text)` wraps the text
in a single `{"text": ...}` fragment. -/
def ToolResult.success (id : RStr) (text : RStr) : ToolResult :=
  { tool_use_id := id, content := [[("text".toList, .str text)]], status := some "success".toList }

/-- Modelled from the spec: `ToolResult::error(id, text)`. -/
def ToolResult.error (id : RStr) (text : RStr) : ToolResult :=
  { tool_use_id := id, content := [[("text".toList, .str text)]], status := some "error".toList }

/-- Modelled from the spec: a tool definition sent with the current
message (`Tool`/`ToolSpecification` in the upstream schema). -/
structure KiroTool where
  name : RStr
  description : RStr
  input_schema : JsonV

/-- Modelled from the spec: an image attachment (base64 data plus format). -/
structure KiroImage where
  format : RStr
  data : RStr

/-- Modelled from the spec: `UserInputMessageContext` with the tool
definitions and tool results of a user message. -/
structure UserInputMessageContext where
  tools : List KiroTool
  tool_results : List ToolResult

/-- Modelled from the spec: an empty context (`UserInputMessageContext::new`). -/
def UserInputMessageContext.new : UserInputMessageContext :=
  { tools := [], tool_results := [] }

/-- Modelled from the spec: a user message (`UserInputMessage`). -/
structure UserInputMessage where
  content : RStr
  model_id : RStr
  images : List KiroImage
  user_input_message_context : UserInputMessageContext
  origin : Option RStr

/-- Modelled from the spec: `UserInputMessage::new(content, model_id)`. -/
def UserInputMessage.new (content model_id : RStr) : UserInputMessage :=
  { content := content, model_id := model_id, images := [],
    user_input_message_context := UserInputMessageContext.new, origin := none }

/-- Modelled from the spec: an assistant message (`AssistantMessage`),
whose text may embed `<thinking>` blocks, plus optional tool uses. -/
structure AssistantMessage where
  content : RStr
  tool_uses : Option (List ToolUseEntry)

/-- Modelled from the spec: a history entry is either a user or an
assistant message. -/
inductive Message : Type where
  | user (user_input_message : UserInputMessage) : Message
  | assistant (assistant_response_message : AssistantMessage) : Message

/-- Modelled from the spec: the upstream request body
(`ConversationState`). -/
structure ConversationState where
  conversation_id : RStr
  agent_continuation_id : RStr
  agent_task_type : RStr
  chat_trigger_type : RStr
  history : List Message
  current_message : UserInputMessage

/-! ## Compression pipeline (src/anthropic/compressor.rs) -/

/-- Modelled from the spec: `crate::model::config::CompressionConfig`
(that config module is outside the sources in scope); fields are exactly
those the pipeline reads, with the numeric limits as `usize`. -/
structure CompressionConfig where
  enabled : Bool
  whitespace_compression : Bool
  thinking_strategy : RStr
  tool_result_max_chars : Nat
  tool_result_head_lines : Nat
  tool_result_tail_lines : Nat
  tool_use_input_max_chars : Nat
  max_history_turns : Nat
  max_history_chars : Nat

/-- `CompressionStats` of compressor.rs. -/
structure CompressionStats where
  whitespace_saved : Nat
  thinking_saved : Nat
  tool_result_saved : Nat
  tool_use_input_saved : Nat
  history_turns_removed : Nat

/-- `CompressionStats::default()`. -/
def CompressionStats.default : CompressionStats :=
  { whitespace_saved := 0, thinking_saved := 0, tool_result_saved := 0,
    tool_use_input_saved := 0, history_turns_removed := 0 }

/-- One iteration of the line loop of `compress_whitespace`: the state is
the accumulated result plus the consecutive-empty-line counter. -/
def compressWhitespaceStep (acc : RStr × Nat) (line : RStr) : RStr × Nat :=
  let result := acc.1
  let consecutive_empty := acc.2
  let trimmed_end := trimEnd line
  if trimmed_end = [] then
    let ce := consecutive_empty + 1
    (if ce ≤ 2 ∧ result ≠ [] then result ++ ['\n'] else result, ce)
  else
    ((if result ≠ [] then result ++ ['\n'] else result) ++ trimmed_end, 0)

/-- `compress_whitespace`: trim line ends, collapse runs of three or more
empty lines, never emit a leading newline. -/
def compress_whitespace (text : RStr) : RStr :=
  ((splitOnChar '\n' text).foldl compressWhitespaceStep ([], 0)).1

/-- `compress_string_field`: skip the `" "` placeholder; keep the
compressed text only when it is strictly shorter in bytes.  Returns the
new field value and the bytes saved. -/
def compress_string_field (field : RStr) : RStr × Nat :=
  if field = [' '] then (field, 0)
  else
    let original_len := byteLen field
    let compressed := compress_whitespace field
    if byteLen compressed < original_len then (compressed, original_len - byteLen compressed)
    else (field, 0)

/-- `compress_whitespace_pass` on one history message. -/
def compressWhitespaceMsg (msg : Message) : Message × Nat :=
  match msg with
  | .user u =>
    let (c, s) := compress_string_field u.content
    (.user { u with content := c }, s)
  | .assistant a =>
    let (c, s) := compress_string_field a.content
    (.assistant { a with content := c }, s)

/-- `compress_whitespace_pass`: apply `compress_string_field` to every
history message and to the current message. -/
def compress_whitespace_pass (state : ConversationState) : ConversationState × Nat :=
  let hist := state.history.map compressWhitespaceMsg
  let (cc, cs) := compress_string_field state.current_message.content
  ({ state with
      history := hist.map Prod.fst,
      current_message := { state.current_message with content := cc } },
   (hist.map Prod.snd).sum + cs)

/-- The literal `<thinking>` tag. -/
def thinkingOpen : RStr := "<thinking>".toList

/-- The literal `</thinking>` tag. -/
def thinkingClose : RStr := "</thinking>".toList

/-- Loop body of `remove_thinking_blocks`, structured on fuel; one unit of
fuel per iteration of the Rust `while let` loop (each iteration consumes
at least one character of `remaining`, so `text.length` fuel suffices). -/
def removeThinkingAux : Nat → RStr → RStr
  | 0, remaining => remaining
  | fuel + 1, remaining =>
    match findSub thinkingOpen remaining with
    | none => remaining
    | some start =>
      remaining.take start ++
        match findSub thinkingClose (remaining.drop start) with
        | some e => removeThinkingAux fuel (remaining.drop (start + e + thinkingClose.length))
        | none => []

/-- `remove_thinking_blocks`: delete every `<thinking>...</thinking>`
block (an unterminated block is deleted to the end of the text). -/
def remove_thinking_blocks (text : RStr) : RStr := removeThinkingAux text.length text

/-- Loop body of `truncate_thinking_blocks`, on fuel as above. -/
def truncateThinkingAux (max_chars : Nat) : Nat → RStr → RStr
  | 0, remaining => remaining
  | fuel + 1, remaining =>
    match findSub thinkingOpen remaining with
    | none => remaining
    | some start =>
      let after_tag := remaining.drop (start + thinkingOpen.length)
      remaining.take start ++
        match findSub thinkingClose after_tag with
        | some e =>
          let thinking_content := after_tag.take e
          let truncated := thinking_content.take max_chars
          thinkingOpen ++ truncated ++
            (if byteLen truncated < byteLen thinking_content then "...[truncated]".toList else []) ++
            thinkingClose ++
            truncateThinkingAux max_chars fuel (after_tag.drop (e + thinkingClose.length))
        | none =>
          thinkingOpen ++ after_tag.take max_chars ++ "...[truncated]</thinking>".toList

/-- `truncate_thinking_blocks`: keep only the first `max_chars` characters
of each `<thinking>` block, appending a `...[truncated]` marker when
content was dropped. -/
def truncate_thinking_blocks (text : RStr) (max_chars : Nat) : RStr :=
  truncateThinkingAux max_chars text.length text

/-- `compress_thinking_pass` on one message: only assistant content is
touched; bytes are counted as saved only when the text shrank. -/
def compressThinkingMsg (strategy : RStr) (msg : Message) : Message × Nat :=
  match msg with
  | .assistant a =>
    let original_len := byteLen a.content
    let content :=
      if strategy = "discard".toList then remove_thinking_blocks a.content
      else if strategy = "truncate".toList then truncate_thinking_blocks a.content 500
      else a.content
    let saved := if byteLen content < original_len then original_len - byteLen content else 0
    (.assistant { a with content := content }, saved)
  | m => (m, 0)

/-- `compress_thinking_pass`. -/
def compress_thinking_pass (state : ConversationState) (strategy : RStr) :
    ConversationState × Nat :=
  let hist := state.history.map (compressThinkingMsg strategy)
  ({ state with history := hist.map Prod.fst }, (hist.map Prod.snd).sum)

/-- `safe_char_truncate`: keep the first `max_chars` characters (never
splits a character in the list model). -/
def safe_char_truncate (text : RStr) (max_chars : Nat) : RStr := text.take max_chars

/-- `smart_truncate_by_lines`: keep head and tail lines with an omission
marker; fall back to a half-head/half-tail character split when the text
has too few lines.  Returns the new text and the bytes saved. -/
def smart_truncate_by_lines (text : RStr) (max_chars head_lines tail_lines : Nat) :
    RStr × Nat :=
  let char_count := text.length
  if char_count ≤ max_chars then (text, 0)
  else
    let lines := rustLines text
    let total_lines := lines.length
    if total_lines ≤ head_lines + tail_lines then
      let half := max_chars / 2
      let head := safe_char_truncate text half
      let tail_chars := max_chars - head.length
      let k := tail_chars - 1
      let tail := if k < text.length then text.drop (text.length - 1 - k) else text
      let omitted := char_count - (head.length + tail.length)
      let result :=
        head ++ '\n' :: "... [".toList ++ natStr omitted ++ " chars omitted] ...".toList ++
          '\n' :: tail
      (result, byteLen text - byteLen result)
    else
      let head_part := List.intercalate ['\n'] (lines.take head_lines)
      let tail_part := List.intercalate ['\n'] (lines.drop (total_lines - tail_lines))
      let omitted_lines := total_lines - head_lines - tail_lines
      let omitted_chars := char_count - (head_part.length + tail_part.length)
      let composed :=
        head_part ++ '\n' :: "... [".toList ++ natStr omitted_lines ++
          " lines omitted (".toList ++ natStr omitted_chars ++ " chars)] ...".toList ++
          '\n' :: tail_part
      let result :=
        if composed.length > max_chars then safe_char_truncate composed max_chars else composed
      (result, byteLen text - byteLen result)

/-- `truncate_tool_result_content` on a single content fragment (one JSON
object of the `content` array): truncate its `"text"` field if that field
is a string longer than `max_chars` characters. -/
def truncateToolResultMap (max_chars head_lines tail_lines : Nat)
    (map : List (RStr × JsonV)) : List (RStr × JsonV) × Nat :=
  match jsonGet map "text".toList with
  | some (.str text) =>
    if text.length > max_chars then
      let (truncated, s) := smart_truncate_by_lines text max_chars head_lines tail_lines
      (map.map (fun p => if p.1 = "text".toList then (p.1, JsonV.str truncated) else p), s)
    else (map, 0)
  | _ => (map, 0)

/-- `truncate_tool_result_content`: fold the fragment-level truncation
over the `content` array of one tool result. -/
def truncate_tool_result_content (content : List (List (RStr × JsonV)))
    (max_chars head_lines tail_lines : Nat) : List (List (RStr × JsonV)) × Nat :=
  let rs := content.map (truncateToolResultMap max_chars head_lines tail_lines)
  (rs.map Prod.fst, (rs.map Prod.snd).sum)

/-- `compress_tool_results_pass` on one history message. -/
def compressToolResultsMsg (max_chars head_lines tail_lines : Nat) (msg : Message) :
    Message × Nat :=
  match msg with
  | .user u =>
    let rs := u.user_input_message_context.tool_results.map (fun r =>
      let (c, s) := truncate_tool_result_content r.content max_chars head_lines tail_lines
      ({ r with content := c }, s))
    (.user { u with user_input_message_context :=
        { u.user_input_message_context with tool_results := rs.map Prod.fst } },
     (rs.map Prod.snd).sum)
  | m => (m, 0)

/-- `compress_tool_results_pass`: truncate every tool-result text fragment
in history user messages and in the current message. -/
def compress_tool_results_pass (state : ConversationState)
    (max_chars head_lines tail_lines : Nat) : ConversationState × Nat :=
  let hist := state.history.map (compressToolResultsMsg max_chars head_lines tail_lines)
  let cur := state.current_message.user_input_message_context.tool_results.map (fun r =>
    let (c, s) := truncate_tool_result_content r.content max_chars head_lines tail_lines
    ({ r with content := c }, s))
  ({ state with
      history := hist.map Prod.fst,
      current_message := { state.current_message with user_input_message_context :=
        { state.current_message.user_input_message_context with
            tool_results := cur.map Prod.fst } } },
   (hist.map Prod.snd).sum + (cur.map Prod.snd).sum)

/-- `truncate_json_value_strings`: recursively truncate every string in a
JSON value to `max_chars` characters, appending a
`...[truncated N chars]` marker only when the marked form is strictly
shorter in bytes than the original. -/
def truncate_json_value_strings (max_chars : Nat) : JsonV → JsonV × Nat
  | .str s =>
    let original_char_count := s.length
    if original_char_count > max_chars then
      let original_len := byteLen s
      let truncated := safe_char_truncate s max_chars
      let omitted_chars := original_char_count - max_chars
      let with_marker :=
        truncated ++ "...[truncated ".toList ++ natStr omitted_chars ++ " chars]".toList
      let new_value := if byteLen with_marker < original_len then with_marker else truncated
      (.str new_value, original_len - byteLen new_value)
    else (.str s, 0)
  | .obj fields =>
    let rs := fields.attach.map (fun p => (p.1.1, truncate_json_value_strings max_chars p.1.2))
    (.obj (rs.map (fun q => (q.1, q.2.1))), (rs.map (fun q => q.2.2)).sum)
  | .arr xs =>
    let rs := xs.attach.map (fun v => truncate_json_value_strings max_chars v.1)
    (.arr (rs.map Prod.fst), (rs.map Prod.snd).sum)
  | v => (v, 0)
  decreasing_by
  · have h := sizeOf_field_snd_lt p.2
    simp only [JsonV.obj.sizeOf_spec]
    omega
  · have h := List.sizeOf_lt_of_mem v.2
    simp only [JsonV.arr.sizeOf_spec]
    omega

/-- `compress_tool_use_inputs_pass` on one message: a tool-use input is
rewritten only when its compact serialization exceeds the limit. -/
def compressToolUseInputsMsg (max_chars : Nat) (msg : Message) : Message × Nat :=
  match msg with
  | .assistant a =>
    match a.tool_uses with
    | some tool_uses =>
      let rs := tool_uses.map (fun tu =>
        let serialized := jsonChars tu.input
        if serialized.length > max_chars then
          let (v, s) := truncate_json_value_strings max_chars tu.input
          ({ tu with input := v }, s)
        else (tu, 0))
      (.assistant { a with tool_uses := some (rs.map Prod.fst) }, (rs.map Prod.snd).sum)
    | none => (.assistant a, 0)
  | m => (m, 0)

/-- `compress_tool_use_inputs_pass`. -/
def compress_tool_use_inputs_pass (state : ConversationState) (max_chars : Nat) :
    ConversationState × Nat :=
  let hist := state.history.map (compressToolUseInputsMsg max_chars)
  ({ state with history := hist.map Prod.fst }, (hist.map Prod.snd).sum)

/-- Character count of one history message's content, as summed by the
char-limit loop of `compress_history_pass`. -/
def msgChars : Message → Nat
  | .user u => u.content.length
  | .assistant a => a.content.length

/-- The double `remove(2)` of `compress_history_pass`: drop the pair at
indices 2 and 3. -/
def removePairAt2 (h : List Message) : List Message := h.take 2 ++ h.drop 4

/-- Turn-count loop of `compress_history_pass`, on fuel (each iteration
removes two messages, so `h.length` fuel suffices). -/
def historyTurnsLoop (max_messages : Nat) : Nat → List Message → List Message × Nat
  | 0, h => (h, 0)
  | fuel + 1, h =>
    if max_messages < h.length ∧ 4 < h.length then
      let r := historyTurnsLoop max_messages fuel (removePairAt2 h)
      (r.1, r.2 + 1)
    else (h, 0)

/-- Character-count loop of `compress_history_pass`, on fuel as above. -/
def historyCharsLoop (max_chars : Nat) : Nat → List Message → List Message × Nat
  | 0, h => (h, 0)
  | fuel + 1, h =>
    let total_chars := (h.map msgChars).sum
    if total_chars ≤ max_chars ∨ h.length ≤ 4 then (h, 0)
    else
      let r := historyCharsLoop max_chars fuel (removePairAt2 h)
      (r.1, r.2 + 1)

/-- `compress_history_pass`: the turn-count loop (when `max_turns > 0`)
followed by the character-count loop (when `max_chars > 0`); both preserve
the first two messages (the system pair) and stop as soon as at most four
messages remain.  Returns the new history and the number of pairs
removed. -/
def compress_history_pass (history : List Message) (max_turns max_chars : Nat) :
    List Message × Nat :=
  let r1 :=
    if 0 < max_turns then historyTurnsLoop (2 + max_turns * 2) history.length history
    else (history, 0)
  let r2 := if 0 < max_chars then historyCharsLoop max_chars r1.1.length r1.1 else (r1.1, 0)
  (r2.1, r1.2 + r2.2)

/-- `compress`: the ordered pipeline, each pass gated by its config flag;
a disabled pipeline returns the body untouched. -/
def compress (state : ConversationState) (config : CompressionConfig) :
    ConversationState × CompressionStats :=
  if ¬ config.enabled then (state, CompressionStats.default)
  else
    let (s1, whitespace_saved) :=
      if config.whitespace_compression then compress_whitespace_pass state else (state, 0)
    let (s2, thinking_saved) :=
      if ¬ config.thinking_strategy = "keep".toList then
        compress_thinking_pass s1 config.thinking_strategy
      else (s1, 0)
    let (s3, tool_result_saved) :=
      if 0 < config.tool_result_max_chars then
        compress_tool_results_pass s2 config.tool_result_max_chars
          config.tool_result_head_lines config.tool_result_tail_lines
      else (s2, 0)
    let (s4, tool_use_input_saved) :=
      if 0 < config.tool_use_input_max_chars then
        compress_tool_use_inputs_pass s3 config.tool_use_input_max_chars
      else (s3, 0)
    let (h5, history_turns_removed) :=
      if 0 < config.max_history_turns ∨ 0 < config.max_history_chars then
        compress_history_pass s4.history config.max_history_turns config.max_history_chars
      else (s4.history, 0)
    ({ s4 with history := h5 },
     { whitespace_saved := whitespace_saved, thinking_saved := thinking_saved,
       tool_result_saved := tool_result_saved, tool_use_input_saved := tool_use_input_saved,
       history_turns_removed := history_turns_removed })

/-! ## Anthropic request model (src/anthropic/types.rs) -/

/-- `Thinking` of types.rs. -/
structure Thinking where
  thinking_type : RStr
  budget_tokens : Int

/-- `Metadata` of types.rs. -/
structure Metadata where
  user_id : Option RStr

/-- `SystemMessage` of types.rs. -/
structure SystemMessage where
  message_type : RStr
  text : RStr

/-- `ImageSource` of types.rs. -/
structure ImageSource where
  source_type : RStr
  media_type : RStr
  data : RStr

/-- `ContentBlock` of types.rs: one parsed element of a content array. -/
structure ContentBlock where
  block_type : RStr
  text : Option RStr
  thinking : Option RStr
  tool_use_id : Option RStr
  content : Option JsonV
  name : Option RStr
  input : Option JsonV
  id : Option RStr
  is_error : Option Bool
  source : Option ImageSource

/-- A message `content` value: the converter distinguishes a JSON string,
a JSON array whose elements parse as `ContentBlock` (elements that fail to
parse are represented by blocks with an unknown `block_type`, which every
consumer skips), and any other JSON shape. -/
inductive AContent : Type where
  | str (s : RStr) : AContent
  | blocks (items : List ContentBlock) : AContent
  | other : AContent

/-- `Message` of types.rs (client-side). -/
structure AMessage where
  role : RStr
  content : AContent

/-- Modelled from the spec: the `Tool` struct imported by the converter
from `super::types` (`Tool as AnthropicTool`), absent from the types.rs in
scope; fields are exactly those the converter reads (`type`, `name`,
`description`, `input_schema`). -/
structure ATool where
  tool_type : Option RStr
  name : RStr
  description : RStr
  input_schema : JsonV

/-- `MessagesRequest` of types.rs, with `tools` typed as the converter
consumes them. -/
structure MessagesRequest where
  model : RStr
  max_tokens : Int
  messages : List AMessage
  stream : Bool
  system : Option (List SystemMessage)
  tools : Option (List ATool)
  tool_choice : Option JsonV
  thinking : Option Thinking
  metadata : Option Metadata

/-! ## Protocol converter (src/anthropic/converter.rs) -/

/-- `ConversionError` of converter.rs. -/
inductive ConversionError : Type where
  | unsupportedModel (model : RStr) : ConversionError
  | emptyMessages : ConversionError
  deriving DecidableEq

/-- `non_empty_content_or_space`: substitute the `" "` placeholder when a
message carries only non-text payload and its text is blank. -/
def non_empty_content_or_space (content : RStr) (has_non_text_payload : Bool) : RStr :=
  if has_non_text_payload ∧ trimStr content = [] then [' '] else content

/-- `default_json_schema`: the permissive open-object schema. -/
def default_json_schema : JsonV :=
  .obj [("$schema".toList, .str "http://json-schema.org/draft-07/schema#".toList),
        ("type".toList, .str "object".toList),
        ("properties".toList, .obj []),
        ("required".toList, .arr []),
        ("additionalProperties".toList, .bool true)]

/-- `normalize_json_schema`: coerce `$schema`, `type`, `properties`,
`required` and `additionalProperties` to their canonical shapes; a
non-object input is replaced by the default schema. -/
def normalize_json_schema (schema : JsonV) : JsonV :=
  match schema with
  | .obj obj0 =>
    let schema_uri :=
      match jsonGet obj0 "$schema".toList with
      | some (.str s) =>
        if trimStr s = [] then "http://json-schema.org/draft-07/schema#".toList else s
      | _ => "http://json-schema.org/draft-07/schema#".toList
    let o1 := jsonInsert obj0 "$schema".toList (.str schema_uri)
    let ty :=
      match jsonGet o1 "type".toList with
      | some (.str s) => if trimStr s = [] then "object".toList else s
      | _ => "object".toList
    let o2 := jsonInsert o1 "type".toList (.str ty)
    let pr := jsonRemove o2 "properties".toList
    let properties :=
      match pr.1 with
      | some (.obj m) => JsonV.obj m
      | _ => JsonV.obj []
    let o4 := jsonInsert pr.2 "properties".toList properties
    let rr := jsonRemove o4 "required".toList
    let required :=
      match rr.1 with
      | some (.arr a) =>
        JsonV.arr (a.filterMap (fun v => match v with | .str s => some (JsonV.str s) | _ => none))
      | _ => JsonV.arr []
    let o6 := jsonInsert rr.2 "required".toList required
    let ar := jsonRemove o6 "additionalProperties".toList
    let additional_properties :=
      match ar.1 with
      | some (.bool b) => JsonV.bool b
      | some (.obj m) => JsonV.obj m
      | _ => JsonV.bool true
    .obj (jsonInsert ar.2 "additionalProperties".toList additional_properties)
  | _ => default_json_schema

/-- `map_model`: case-insensitive substring mapping onto the three
supported upstream model ids. -/
def map_model (model : RStr) : Option RStr :=
  let model_lower := lowerStr model
  if containsSub model_lower "sonnet".toList then some "claude-sonnet-4.5".toList
  else if containsSub model_lower "opus".toList then some "claude-opus-4.5".toList
  else if containsSub model_lower "haiku".toList then some "claude-haiku-4.5".toList
  else none

/-- `extract_session_id`: the 36 characters after `session_`, accepted
when they contain exactly four dashes. -/
def extract_session_id (user_id : RStr) : Option RStr :=
  match findSub "session_".toList user_id with
  | some pos =>
    let session_part := user_id.drop (pos + 8)
    if 36 ≤ session_part.length then
      let uuid_str := session_part.take 36
      if (uuid_str.filter (fun c => c = '-')).length = 4 then some uuid_str else none
    else none
  | none => none

/-- `determine_chat_trigger_type`: always "MANUAL". -/
def determine_chat_trigger_type (_req : MessagesRequest) : RStr := "MANUAL".toList

/-- `get_image_format`: media type to upstream image format. -/
def get_image_format (media_type : RStr) : Option RStr :=
  if media_type = "image/jpeg".toList then some "jpeg".toList
  else if media_type = "image/png".toList then some "png".toList
  else if media_type = "image/gif".toList then some "gif".toList
  else if media_type = "image/webp".toList then some "webp".toList
  else none

/-- `extract_tool_result_content`: string content verbatim; array content
joins the string-valued `"text"` fields of its object elements; any other
JSON value is serialized; absent content is empty. -/
def extract_tool_result_content (content : Option JsonV) : RStr :=
  match content with
  | some (.str s) => s
  | some (.arr arr) =>
    List.intercalate ['\n']
      (arr.filterMap (fun item =>
        match item with
        | .obj fs => jsonGetStr fs "text".toList
        | _ => none))
  | some v => jsonChars v
  | none => []

/-- One iteration of the block loop of `process_message_content`; the
state is `(text_parts, images, tool_results)`. -/
def processBlockStep (acc : List RStr × List KiroImage × List ToolResult)
    (block : ContentBlock) : List RStr × List KiroImage × List ToolResult :=
  let texts := acc.1
  let images := acc.2.1
  let tool_results := acc.2.2
  if block.block_type = "text".toList then
    match block.text with
    | some t => (texts ++ [t], images, tool_results)
    | none => acc
  else if block.block_type = "image".toList then
    match block.source with
    | some source =>
      match get_image_format source.media_type with
      | some format => (texts, images ++ [{ format := format, data := source.data }], tool_results)
      | none => acc
    | none => acc
  else if block.block_type = "tool_result".toList then
    match block.tool_use_id with
    | some tool_use_id =>
      let result_content := extract_tool_result_content block.content
      let is_error := block.is_error.getD false
      let base :=
        if is_error then ToolResult.error tool_use_id result_content
        else ToolResult.success tool_use_id result_content
      let result :=
        { base with status := some (if is_error then "error".toList else "success".toList) }
      (texts, images, tool_results ++ [result])
    | none => acc
  else acc

/-- `process_message_content`: split a message's content value into
joined text, images, and tool results. -/
def process_message_content (content : AContent) :
    RStr × List KiroImage × List ToolResult :=
  match content with
  | .str s => (s, [], [])
  | .blocks items =>
    let r := items.foldl processBlockStep ([], [], [])
    (List.intercalate ['\n'] r.1, r.2.1, r.2.2)
  | .other => ([], [], [])

/-- `merge_user_messages`: texts joined with newlines, images and tool
results concatenated, with the placeholder substitution. -/
def merge_user_messages (messages : List AMessage) (model_id : RStr) : UserInputMessage :=
  let parts := messages.map (fun m => process_message_content m.content)
  let content_parts := (parts.map (fun p => p.1)).filter (fun t => ¬ t = [])
  let all_images := (parts.map (fun p => p.2.1)).flatten
  let all_tool_results := (parts.map (fun p => p.2.2)).flatten
  let content := non_empty_content_or_space (List.intercalate ['\n'] content_parts)
      (¬ all_images.isEmpty ∨ ¬ all_tool_results.isEmpty)
  { content := content, model_id := model_id, images := all_images,
    user_input_message_context := { tools := [], tool_results := all_tool_results },
    origin := none }

/-- One iteration of the block loop of `convert_assistant_message`; the
state is `(thinking_content, text_content, tool_uses)`. -/
def assistantBlockStep (acc : RStr × RStr × List ToolUseEntry) (block : ContentBlock) :
    RStr × RStr × List ToolUseEntry :=
  let thinking_content := acc.1
  let text_content := acc.2.1
  let tool_uses := acc.2.2
  if block.block_type = "thinking".toList then
    match block.thinking with
    | some t => (thinking_content ++ t, text_content, tool_uses)
    | none => acc
  else if block.block_type = "text".toList then
    match block.text with
    | some t => (thinking_content, text_content ++ t, tool_uses)
    | none => acc
  else if block.block_type = "tool_use".toList then
    match block.id, block.name with
    | some id, some name =>
      (thinking_content, text_content,
       tool_uses ++ [{ tool_use_id := id, name := name, input := block.input.getD (.obj []) }])
    | _, _ => acc
  else acc

/-- `convert_assistant_message`: wrap thinking in `<thinking>` tags before
the text; use the `" "` placeholder when only tool uses are present. -/
def convert_assistant_message (msg : AMessage) : AssistantMessage :=
  let r :=
    match msg.content with
    | .str s => (([] : RStr), s, ([] : List ToolUseEntry))
    | .blocks items => items.foldl assistantBlockStep ([], [], [])
    | .other => ([], [], [])
  let thinking_content := r.1
  let text_content := r.2.1
  let tool_uses := r.2.2
  let final_content :=
    if ¬ thinking_content = [] then
      if ¬ text_content = [] then
        thinkingOpen ++ thinking_content ++ thinkingClose ++ '\n' :: '\n' :: text_content
      else thinkingOpen ++ thinking_content ++ thinkingClose
    else if text_content = [] ∧ ¬ tool_uses.isEmpty then [' ']
    else text_content
  { content := final_content,
    tool_uses := if ¬ tool_uses.isEmpty then some tool_uses else none }

/-- `generate_thinking_prefix`: the thinking-mode tag pair, when thinking
is enabled. -/
def generate_thinking_prefix (thinking : Option Thinking) : Option RStr :=
  match thinking with
  | some t =>
    if t.thinking_type = "enabled".toList then
      some ("<thinking_mode>enabled</thinking_mode><max_thinking_length>".toList ++
        intStr t.budget_tokens ++ "</max_thinking_length>".toList)
    else none
  | none => none

/-- `has_thinking_tags`. -/
def has_thinking_tags (content : RStr) : Bool :=
  containsSub content "<thinking_mode>".toList ∨
    containsSub content "<max_thinking_length>".toList

/-- The synthetic assistant acknowledgement of the system pair. -/
def ackAssistant : Message :=
  .assistant { content := "I will follow these instructions.".toList, tool_uses := none }

/-- The message loop of `build_history`: user messages accumulate in a
buffer; an assistant message is emitted (preceded by the merged buffer)
only when the buffer is non-empty; a trailing non-empty buffer is closed
with a synthetic "OK" assistant reply. -/
def historyLoop (model_id : RStr) :
    List AMessage → List AMessage → List Message → List Message
  | [], buffer, acc =>
    if ¬ buffer.isEmpty then
      acc ++ [.user (merge_user_messages buffer model_id),
              .assistant { content := "OK".toList, tool_uses := none }]
    else acc
  | m :: rest, buffer, acc =>
    if m.role = "user".toList then historyLoop model_id rest (buffer ++ [m]) acc
    else if m.role = "assistant".toList then
      if ¬ buffer.isEmpty then
        historyLoop model_id rest []
          (acc ++ [.user (merge_user_messages buffer model_id),
                   .assistant (convert_assistant_message m)])
      else historyLoop model_id rest buffer acc
    else historyLoop model_id rest buffer acc

/-- `build_history`: the synthetic system pair (with the thinking tag
injected or inserted), followed by the paired traversal of all client
messages except the last (the last is included when it is an assistant
message). -/
def build_history (req : MessagesRequest) (model_id : RStr) : List Message :=
  let thinking_pre := generate_thinking_prefix req.thinking
  let sysPairs : List Message :=
    match req.system with
    | some system =>
      let system_content := List.intercalate ['\n'] (system.map (fun s => s.text))
      if ¬ system_content = [] then
        let final_content :=
          match thinking_pre with
          | some p =>
            if ¬ has_thinking_tags system_content then p ++ '\n' :: system_content
            else system_content
          | none => system_content
        [.user (UserInputMessage.new final_content model_id), ackAssistant]
      else []
    | none =>
      match thinking_pre with
      | some p => [.user (UserInputMessage.new p model_id), ackAssistant]
      | none => []
  let last_is_assistant : Bool :=
    match req.messages.getLast? with
    | some m => m.role == "assistant".toList
    | none => false
  let history_end_index :=
    if last_is_assistant then req.messages.length else req.messages.length - 1
  historyLoop model_id (req.messages.take history_end_index) [] sysPairs

/-- `collect_history_tool_names`: tool names referenced by history
assistant messages, first occurrence first, without duplicates. -/
def collect_history_tool_names (history : List Message) : List RStr :=
  history.foldl (fun acc msg =>
    match msg with
    | .assistant a =>
      match a.tool_uses with
      | some tool_uses =>
        tool_uses.foldl (fun acc2 tu => if tu.name ∈ acc2 then acc2 else acc2 ++ [tu.name]) acc
      | none => acc
    | .user _ => acc) []

/-- `create_placeholder_tool`: the permissive definition synthesized for
a tool name referenced by history but missing from the tools list. -/
def create_placeholder_tool (name : RStr) : KiroTool :=
  { name := name,
    description := "Tool used in conversation history".toList,
    input_schema := default_json_schema }

/-- `convert_tools`: drop `web_search*` tools; default and truncate the
description; normalize the input schema. -/
def convert_tools (tools : Option (List ATool)) : List KiroTool :=
  match tools with
  | none => []
  | some ts =>
    (ts.filter (fun t =>
      ! (match t.tool_type with
         | some ty => "web_search".toList.isPrefixOf ty
         | none => false))).map (fun t =>
      let description :=
        if trimStr t.description = [] then "Tool: ".toList ++ t.name else t.description
      let description := description.take 10000
      { name := t.name, description := description,
        input_schema := normalize_json_schema t.input_schema })

/-- Insertion into a modelled `HashSet` kept as a duplicate-free list (the
model preserves first-insertion order; only membership and emptiness of
the set are ever consumed). -/
def setInsert (s : List RStr) (x : RStr) : List RStr := if x ∈ s then s else s ++ [x]

/-- The history scan of `validate_tool_pairing`, step 1: every
`tool_use_id` carried by an assistant message. -/
def allToolUseIds (history : List Message) : List RStr :=
  history.foldl (fun acc msg =>
    match msg with
    | .assistant a =>
      match a.tool_uses with
      | some tool_uses => tool_uses.foldl (fun acc2 tu => setInsert acc2 tu.tool_use_id) acc
      | none => acc
    | .user _ => acc) []

/-- The history scan of `validate_tool_pairing`, step 2: every
`tool_use_id` already answered by a tool result inside a history user
message. -/
def historyToolResultIds (history : List Message) : List RStr :=
  history.foldl (fun acc msg =>
    match msg with
    | .user u =>
      u.user_input_message_context.tool_results.foldl
        (fun acc2 r => setInsert acc2 r.tool_use_id) acc
    | .assistant _ => acc) []

/-- The result loop of `validate_tool_pairing`, step 4: keep a current
tool result when its id is still unpaired (and consume the id); skip it
as a duplicate when the id exists but was already paired, and as an
orphan when no such tool use exists (both skips only warn). -/
def validateResultsLoop (all_tool_use_ids : List RStr) :
    List ToolResult → List RStr → List ToolResult × List RStr
  | [], unpaired => ([], unpaired)
  | r :: rest, unpaired =>
    if r.tool_use_id ∈ unpaired then
      let rec_result := validateResultsLoop all_tool_use_ids rest (unpaired.erase r.tool_use_id)
      (r :: rec_result.1, rec_result.2)
    else if r.tool_use_id ∈ all_tool_use_ids then
      validateResultsLoop all_tool_use_ids rest unpaired
    else
      validateResultsLoop all_tool_use_ids rest unpaired

/-- `validate_tool_pairing`: returns the filtered current-message tool
results and the set of orphaned tool-use ids (unpaired in history and not
answered by the current message). -/
def validate_tool_pairing (history : List Message) (tool_results : List ToolResult) :
    List ToolResult × List RStr :=
  let all_tool_use_ids := allToolUseIds history
  let history_tool_result_ids := historyToolResultIds history
  let unpaired_tool_use_ids :=
    all_tool_use_ids.filter (fun i => ¬ i ∈ history_tool_result_ids)
  validateResultsLoop all_tool_use_ids tool_results unpaired_tool_use_ids

/-- `remove_orphaned_tool_uses`: drop the orphaned tool uses from history
assistant messages, collapsing an emptied list to `None`. -/
def remove_orphaned_tool_uses (history : List Message) (orphaned_ids : List RStr) :
    List Message :=
  if orphaned_ids.isEmpty then history
  else
    history.map (fun msg =>
      match msg with
      | .assistant a =>
        match a.tool_uses with
        | some tool_uses =>
          let kept := tool_uses.filter (fun tu => ¬ tu.tool_use_id ∈ orphaned_ids)
          .assistant { a with tool_uses := if kept.isEmpty then none else some kept }
        | none => .assistant a
      | m => m)

/-- `convert_request`.  The two freshly generated UUIDs are passed in as
parameters (`Uuid::new_v4` is an external effect): `fresh_uuid` is the
conversation id used when no session id can be extracted from the
metadata, `agent_continuation_id` the per-request continuation id. -/
def convert_request (req : MessagesRequest) (fresh_uuid agent_continuation_id : RStr) :
    Except ConversionError ConversationState :=
  match map_model req.model with
  | none => .error (.unsupportedModel req.model)
  | some model_id =>
    match req.messages.getLast? with
    | none => .error .emptyMessages
    | some last_message =>
      let conversation_id :=
        ((req.metadata.bind (fun m => m.user_id)).bind extract_session_id).getD fresh_uuid
      let chat_trigger_type := determine_chat_trigger_type req
      let pc := process_message_content last_message.content
      let text_content := pc.1
      let images := pc.2.1
      let tool_results := pc.2.2
      let tools0 := convert_tools req.tools
      let history0 := build_history req model_id
      let vp := validate_tool_pairing history0 tool_results
      let validated_tool_results := vp.1
      let orphaned_tool_use_ids := vp.2
      let history := remove_orphaned_tool_uses history0 orphaned_tool_use_ids
      let history_tool_names := collect_history_tool_names history
      let existing_tool_names := tools0.map (fun t => lowerStr t.name)
      let tools := tools0 ++
        (history_tool_names.filter (fun n => ¬ lowerStr n ∈ existing_tool_names)).map
          create_placeholder_tool
      let has_tool_results := ¬ validated_tool_results.isEmpty
      let context : UserInputMessageContext :=
        { tools := tools, tool_results := validated_tool_results }
      let content :=
        non_empty_content_or_space text_content (¬ images.isEmpty ∨ has_tool_results)
      let user_input : UserInputMessage :=
        { content := content, model_id := model_id, images := images,
          user_input_message_context := context, origin := some "AI_EDITOR".toList }
      .ok { conversation_id := conversation_id,
            agent_continuation_id := agent_continuation_id,
            agent_task_type := "vibe".toList,
            chat_trigger_type := chat_trigger_type,
            history := history,
            current_message := user_input }

/-! ## Credential pool state machine (src/kiro/token_manager.rs)

The pool operations below are the synchronous critical sections of
`MultiTokenManager`; time-based inputs (`Utc::now`) are passed explicitly
as abstract instants, and the balance cache (whose usage recording in
`report_success` is purely time-windowed bookkeeping consumed by the
selection tie-break, which no claim in scope touches) is left out of the
state. -/

/-- `MAX_FAILURES_PER_CREDENTIAL` of token_manager.rs. -/
def MAX_FAILURES_PER_CREDENTIAL : Nat := 2

/-- `MODEL_UNAVAILABLE_THRESHOLD` of token_manager.rs. -/
def MODEL_UNAVAILABLE_THRESHOLD : Nat := 2

/-- `GLOBAL_DISABLE_RECOVERY_MINUTES` of token_manager.rs. -/
def GLOBAL_DISABLE_RECOVERY_MINUTES : Nat := 5

/-- `DisableReason` of token_manager.rs. -/
inductive DisableReason : Type where
  | failureLimit : DisableReason
  | insufficientBalance : DisableReason
  | modelUnavailable : DisableReason
  | manual : DisableReason
  | quotaExceeded : DisableReason
  deriving DecidableEq

/-- `AutoHealReason` of token_manager.rs. -/
inductive AutoHealReason : Type where
  | manual : AutoHealReason
  | tooManyFailures : AutoHealReason
  | quotaExceeded : AutoHealReason
  deriving DecidableEq

/-- `CredentialEntry`: the runtime wrapper around one credential; of the
wrapped credential itself only the refresh token is modelled (the one
credential field the claims consume). -/
structure CredentialEntry where
  id : Nat
  refresh_token : Option RStr
  failure_count : Nat
  disabled : Bool
  disable_reason : Option DisableReason
  auto_heal_reason : Option AutoHealReason
  deriving DecidableEq

/-- The pool state: entry list, global model-unavailable counter, global
recovery deadline, and the user-affinity map (`user_id` to credential
id). -/
structure PoolState where
  entries : List CredentialEntry
  model_unavailable_count : Nat
  global_recovery_time : Option Nat
  affinity : List (RStr × Nat)

/-- Mutation through `entries.iter_mut().find(|e| e.id == id)`: update the
first entry with the given id, if any. -/
def updateFirstById (entries : List CredentialEntry) (id : Nat)
    (f : CredentialEntry → CredentialEntry) : List CredentialEntry :=
  match entries with
  | [] => []
  | e :: rest => if e.id = id then f e :: rest else e :: updateFirstById rest id f

/-- `entries.iter().find(|e| e.id == id)`. -/
def findById (entries : List CredentialEntry) (id : Nat) : Option CredentialEntry :=
  match entries with
  | [] => none
  | e :: rest => if e.id = id then some e else findById rest id

/-- `entries.iter().any(|e| !e.disabled)`: whether any enabled entry
remains. -/
def anyEnabled (entries : List CredentialEntry) : Bool := entries.any (fun e => ¬ e.disabled)

/-- `report_success`: zero the global model-unavailable counter and the
entry's failure count (usage recording for the balance cache is outside
the modelled state). -/
def report_success (s : PoolState) (id : Nat) : PoolState :=
  { s with
      model_unavailable_count := 0,
      entries := updateFirstById s.entries id (fun e => { e with failure_count := 0 }) }

/-- `report_failure`: increment the failure count; on reaching the limit,
disable with reason `failure_limit` and heal tag `too_many_failures` and
drop the affinity bindings to this id.  Returns whether an enabled entry
remains. -/
def report_failure (s : PoolState) (id : Nat) : PoolState × Bool :=
  match findById s.entries id with
  | none => (s, anyEnabled s.entries)
  | some entry =>
    let failure_count := entry.failure_count + 1
    if MAX_FAILURES_PER_CREDENTIAL ≤ failure_count then
      let entries := updateFirstById s.entries id (fun e =>
        { e with failure_count := failure_count, disabled := true,
                 auto_heal_reason := some .tooManyFailures,
                 disable_reason := some .failureLimit })
      ({ s with entries := entries, affinity := s.affinity.filter (fun b => ¬ b.2 = id) },
       anyEnabled entries)
    else
      let entries := updateFirstById s.entries id (fun e =>
        { e with failure_count := failure_count })
      ({ s with entries := entries }, anyEnabled entries)

/-- `report_quota_exhausted`: disable immediately with reason
`quota_exceeded` (the heal tag is left untouched) and pin the failure
count to the limit; an already disabled entry is left as is.  Returns
whether an enabled entry remains. -/
def report_quota_exhausted (s : PoolState) (id : Nat) : PoolState × Bool :=
  match findById s.entries id with
  | none => (s, anyEnabled s.entries)
  | some entry =>
    if entry.disabled then (s, anyEnabled s.entries)
    else
      let entries := updateFirstById s.entries id (fun e =>
        { e with disabled := true, disable_reason := some .quotaExceeded,
                 failure_count := MAX_FAILURES_PER_CREDENTIAL })
      ({ s with entries := entries }, anyEnabled entries)

/-- `disable_all_credentials`: disable every still-enabled entry with the
given reason and arm the global recovery deadline. -/
def disable_all_credentials (s : PoolState) (reason : DisableReason) (now : Nat) : PoolState :=
  { s with
      entries := s.entries.map (fun e =>
        if ¬ e.disabled then { e with disabled := true, disable_reason := some reason } else e),
      global_recovery_time := some (now + GLOBAL_DISABLE_RECOVERY_MINUTES) }

/-- `report_model_unavailable`: bump the global counter; at the threshold
disable all credentials (reason `model_unavailable`) and return `true`. -/
def report_model_unavailable (s : PoolState) (now : Nat) : PoolState × Bool :=
  let count := s.model_unavailable_count + 1
  let s1 := { s with model_unavailable_count := count }
  if MODEL_UNAVAILABLE_THRESHOLD ≤ count then
    (disable_all_credentials s1 .modelUnavailable now, true)
  else (s1, false)

/-- `check_and_recover`: once the recovery deadline has passed, re-enable
exactly the entries disabled with reason `model_unavailable`, clear the
deadline and the counter.  Returns whether anything was recovered. -/
def check_and_recover (s : PoolState) (now : Nat) : PoolState × Bool :=
  let should_recover : Bool :=
    match s.global_recovery_time with
    | some t => t ≤ now
    | none => false
  if ¬ should_recover then (s, false)
  else
    let recovered_count :=
      (s.entries.filter (fun e =>
        e.disabled ∧ e.disable_reason = some .modelUnavailable)).length
    let entries := s.entries.map (fun e =>
      if e.disabled ∧ e.disable_reason = some .modelUnavailable then
        { e with disabled := false, disable_reason := none, failure_count := 0 }
      else e)
    ({ s with entries := entries, global_recovery_time := none, model_unavailable_count := 0 },
     0 < recovered_count)

/-- `mark_insufficient_balance`: disable with reason
`insufficient_balance`, explicitly clearing the heal tag. -/
def mark_insufficient_balance (s : PoolState) (id : Nat) : PoolState :=
  { s with entries := updateFirstById s.entries id (fun e =>
      { e with disabled := true, auto_heal_reason := none,
               disable_reason := some .insufficientBalance }) }

/-- The self-heal step inside `acquire_context`: when no enabled untried
candidate remains and some entry is disabled with heal tag
`too_many_failures`, re-enable every entry carrying that tag. -/
def acquireSelfHeal (s : PoolState) (tried_ids : List Nat) : PoolState :=
  let candidates := s.entries.filter (fun e => ¬ e.disabled ∧ ¬ e.id ∈ tried_ids)
  if candidates.isEmpty ∧
      s.entries.any (fun e => e.disabled ∧ e.auto_heal_reason = some .tooManyFailures) then
    { s with entries := s.entries.map (fun e =>
        if e.auto_heal_reason = some .tooManyFailures then
          { e with disabled := false, auto_heal_reason := none, disable_reason := none,
                   failure_count := 0 }
        else e) }
  else s

/-- Admin `set_disabled`: enabling resets counters and reasons; disabling
tags the entry as manually disabled. -/
def set_disabled (s : PoolState) (id : Nat) (disabled : Bool) : PoolState :=
  { s with entries := updateFirstById s.entries id (fun e =>
      if ¬ disabled then
        { e with disabled := false, failure_count := 0, auto_heal_reason := none,
                 disable_reason := none }
      else { e with disabled := true, auto_heal_reason := some .manual,
                    disable_reason := some .manual }) }

/-- Admin `reset_and_enable`. -/
def reset_and_enable (s : PoolState) (id : Nat) : PoolState :=
  { s with entries := updateFirstById s.entries id (fun e =>
      { e with failure_count := 0, disabled := false, auto_heal_reason := none,
               disable_reason := none }) }

/-- `has_refresh_token_prefix`: compares the prefixes of the candidate
token and each stored refresh token cut at `floor_char_boundary(32)`, the
largest UTF-8 boundary not beyond byte 32. -/
def has_refresh_token_prefix (s : PoolState) (refresh_token : RStr) : Bool :=
  let new_pre := takeBytes 32 refresh_token
  s.entries.any (fun e =>
    match e.refresh_token with
    | some rt => takeBytes 32 rt == new_pre
    | none => false)

/-! ## Upstream call engine (src/kiro/provider.rs)

The per-attempt status interpretation of the two retry loops is modelled
as pure classifiers over the HTTP status and the response body.  A
response or request body on the wire is carried together with its
`serde_json::from_str` parse result (the parser is an external crate). -/

/-- A wire body plus its parse result (`None` models a parse error). -/
structure WireBody where
  raw : RStr
  parsed : Option JsonV

/-- `Value::get(key).and_then(as_str)` at the top level. -/
def jsonTopStr (v : JsonV) (key : RStr) : Option RStr :=
  match v with
  | .obj fs => jsonGetStr fs key
  | _ => none

/-- `Value::pointer("/k1/k2").and_then(as_str)`. -/
def jsonPointerStr2 (v : JsonV) (k1 k2 : RStr) : Option RStr :=
  match v with
  | .obj fs =>
    match jsonGet fs k1 with
    | some (.obj fs2) => jsonGetStr fs2 k2
    | _ => none
  | _ => none

/-- `is_monthly_request_limit`: raw substring match, else the `reason` or
`error.reason` JSON path. -/
def is_monthly_request_limit (body : WireBody) : Bool :=
  if containsSub body.raw "MONTHLY_REQUEST_COUNT".toList then true
  else
    match body.parsed with
    | none => false
    | some v =>
      if jsonTopStr v "reason".toList = some "MONTHLY_REQUEST_COUNT".toList then true
      else jsonPointerStr2 v "error".toList "reason".toList = some "MONTHLY_REQUEST_COUNT".toList

/-- `is_model_temporarily_unavailable`: raw substring match, else the
`reason` or `error.reason` JSON path. -/
def is_model_temporarily_unavailable (body : WireBody) : Bool :=
  if containsSub body.raw "MODEL_TEMPORARILY_UNAVAILABLE".toList then true
  else
    match body.parsed with
    | none => false
    | some v =>
      if jsonTopStr v "reason".toList = some "MODEL_TEMPORARILY_UNAVAILABLE".toList then true
      else
        jsonPointerStr2 v "error".toList "reason".toList =
          some "MODEL_TEMPORARILY_UNAVAILABLE".toList

/-- `is_invalid_bearer_token`: case-insensitive co-occurrence of
"bearer token" and "invalid". -/
def is_invalid_bearer_token (body : WireBody) : Bool :=
  let lower := asciiLower body.raw
  containsSub lower "bearer token".toList ∧ containsSub lower "invalid".toList

/-- The action one attempt of a retry loop takes after reading the HTTP
status and body. -/
inductive ApiStep : Type where
  | success : ApiStep
  | quotaExhausted : ApiStep
  | bail400 : ApiStep
  | invalidateAndRetry : ApiStep
  | credentialFailure : ApiStep
  | transientRetry : ApiStep
  | reportModelUnavailable : ApiStep
  | bailOtherClientError : ApiStep
  | fallbackRetry : ApiStep
  deriving DecidableEq

/-- Status interpretation of one attempt of `call_api_with_retry` (the
main `/v1/messages` loop).  `forced_refresh_is_new` is the result of
`forced_token_refresh.insert(ctx.id)`: true when this credential has not
yet received its one forced-refresh retry.  The 408/429/5xx branch is a
plain transient retry with no pool mutation. -/
def classify_api_attempt (status : Nat) (body : WireBody) (forced_refresh_is_new : Bool) :
    ApiStep :=
  if 200 ≤ status ∧ status ≤ 299 then .success
  else if status = 402 ∧ is_monthly_request_limit body then .quotaExhausted
  else if status = 400 then .bail400
  else if status = 401 ∨ status = 403 then
    if is_invalid_bearer_token body ∧ forced_refresh_is_new then .invalidateAndRetry
    else .credentialFailure
  else if status = 408 ∨ status = 429 ∨ (500 ≤ status ∧ status ≤ 599) then .transientRetry
  else if 400 ≤ status ∧ status ≤ 499 then .bailOtherClientError
  else .fallbackRetry

/-- Status interpretation of one attempt of `call_mcp_with_retry`: as the
main loop, except that the transient branch first tests the body for
`MODEL_TEMPORARILY_UNAVAILABLE` and then calls
`report_model_unavailable`. -/
def classify_mcp_attempt (status : Nat) (body : WireBody) (forced_refresh_is_new : Bool) :
    ApiStep :=
  if 200 ≤ status ∧ status ≤ 299 then .success
  else if status = 402 ∧ is_monthly_request_limit body then .quotaExhausted
  else if status = 400 then .bail400
  else if status = 401 ∨ status = 403 then
    if is_invalid_bearer_token body ∧ forced_refresh_is_new then .invalidateAndRetry
    else .credentialFailure
  else if status = 408 ∨ status = 429 ∨ (500 ≤ status ∧ status ≤ 599) then
    if is_model_temporarily_unavailable body then .reportModelUnavailable
    else .transientRetry
  else if 400 ≤ status ∧ status ≤ 499 then .bailOtherClientError
  else .fallbackRetry

/-- Outcome of the MCP transient branch around the circuit breaker: the
loop bails out exactly when the body matched and
`report_model_unavailable` returned true; otherwise it continues with
backoff. -/
def mcp_transient_bails (body : WireBody) (report_returned : Bool) : Bool :=
  is_model_temporarily_unavailable body ∧ report_returned

/-- Result of `inject_profile_arn`: the body is forwarded verbatim when
the credential has no profile ARN, re-serialized with the `profileArn`
field overridden when the body parses as a JSON object, and an error
otherwise. -/
inductive InjectResult : Type where
  | unchanged (raw : RStr) : InjectResult
  | reserialized (v : JsonV) : InjectResult
  | err : InjectResult

/-- `inject_profile_arn` of provider.rs. -/
def inject_profile_arn (request_body : WireBody) (profile_arn : Option RStr) : InjectResult :=
  match profile_arn with
  | none => .unchanged request_body.raw
  | some arn =>
    match request_body.parsed with
    | none => .err
    | some v =>
      match v with
      | .obj fields => .reserialized (.obj (jsonInsert fields "profileArn".toList (.str arn)))
      | _ => .err

/-- The body actually sent by `call_api_with_retry` after the injection
step: on an injection error the loop logs a warning and falls back to the
original request body (the call is not aborted). -/
def final_request_body (request_body : WireBody) (profile_arn : Option RStr) : RStr :=
  match inject_profile_arn request_body profile_arn with
  | .unchanged raw => raw
  | .reserialized v => jsonChars v
  | .err => request_body.raw

/-! ## Claim C6: refresh-token prefix de-duplication -/

theorem charBytes_pos (c : Char) : 0 < charBytes c := by
  unfold charBytes
  split_ifs <;> omega

theorem byteLen_cons (c : Char) (s : RStr) : byteLen (c :: s) = charBytes c + byteLen s := by
  simp [byteLen]

theorem takeBytes_prefix (n : Nat) (s : RStr) : takeBytes n s <+: s := by
  induction s generalizing n with
  | nil => simp [takeBytes]
  | cons c rest ih =>
    unfold takeBytes
    split_ifs
    · exact List.cons_prefix_cons.mpr ⟨rfl, ih (n - charBytes c)⟩
    · exact List.nil_prefix

theorem byteLen_takeBytes_le (n : Nat) (s : RStr) : byteLen (takeBytes n s) ≤ n := by
  induction s generalizing n with
  | nil => simp [takeBytes, byteLen]
  | cons c rest ih =>
    unfold takeBytes
    split_ifs with h
    · rw [byteLen_cons]
      have := ih (n - charBytes c)
      omega
    · simp [byteLen]

/-- States claim C6 in the spec's own words, for comparison with the code:
membership by equality of the first 32 *characters* of the refresh
tokens. -/
def has_refresh_token_prefix_specChars (s : PoolState) (refresh_token : RStr) : Bool :=
  s.entries.any (fun e =>
    match e.refresh_token with
    | some rt => rt.take 32 == refresh_token.take 32
    | none => false)

/-- A pool holding one credential whose refresh token is sixteen copies of
a three-byte character. -/
def c6_pool : PoolState :=
  { entries := [{ id := 1, refresh_token := some (List.replicate 16 '你'),
                  failure_count := 0, disabled := false, disable_reason := none,
                  auto_heal_reason := none }],
    model_unavailable_count := 0, global_recovery_time := none, affinity := [] }

/-- C6, counterexample.  `has_refresh_token_prefix` compares prefixes cut
at `floor_char_boundary(32)` — a *byte* bound — not the first 32
characters.  With a stored token of sixteen `'你'` (48 bytes, 16 chars)
and a candidate of eleven `'你'` (33 bytes, 11 chars), both truncate to
ten characters (30 bytes) and the code answers `true`, while the claim's
first-32-characters comparison (16 chars versus 11 chars) answers
`false`. -/
theorem c6_counterexample :
    has_refresh_token_prefix c6_pool (List.replicate 11 '你') = true ∧
    has_refresh_token_prefix_specChars c6_pool (List.replicate 11 '你') = false := by
  decide

/-- C6, amended: `has_refresh_token_prefix(tok)` returns true iff some
credential's refresh token, truncated at the largest UTF-8 character
boundary not beyond 32 *bytes*, equals `tok` truncated the same way; the
truncation is a genuine prefix of at most 32 bytes (so the byte slicing
in the code stays on a character boundary and cannot trigger a
slice-boundary panic). -/
theorem c6_amended (s : PoolState) (tok : RStr) :
    ( has_refresh_token_prefix s tok = true ↔
      ∃ e ∈ s.entries, ∃ rt, e.refresh_token = some rt ∧
        takeBytes 32 rt = takeBytes 32 tok) ∧
    takeBytes 32 tok <+: tok ∧ byteLen (takeBytes 32 tok) ≤ 32 := by
  refine ⟨?_, takeBytes_prefix 32 tok, byteLen_takeBytes_le 32 tok⟩
  unfold has_refresh_token_prefix
  rw [List.any_eq_true]
  constructor
  · rintro ⟨e, he, hf⟩
    refine ⟨e, he, ?_⟩
    cases h : e.refresh_token with
    | none => rw [h] at hf; simp at hf
    | some rt =>
      rw [h] at hf
      simp only [beq_iff_eq] at hf
      exact ⟨rt, rfl, hf⟩
  · rintro ⟨e, he, rt, hrt, heq⟩
    refine ⟨e, he, ?_⟩
    rw [hrt]
    simpa using heq

/-- C6, witness for the amended theorem at a concrete pool. -/
theorem c6_amended_witness :
    ( has_refresh_token_prefix c6_pool (List.replicate 11 '你') = true ↔
      ∃ e ∈ c6_pool.entries, ∃ rt, e.refresh_token = some rt ∧
        takeBytes 32 rt = takeBytes 32 (List.replicate 11 '你')) ∧
    takeBytes 32 (List.replicate 11 '你') <+: List.replicate 11 '你' ∧
    byteLen (takeBytes 32 (List.replicate 11 '你')) ≤ 32 :=
  c6_amended c6_pool (List.replicate 11 '你')

/-! ## Claim C2: MODEL_TEMPORARILY_UNAVAILABLE handling per retry loop -/

/-- A 5xx body carrying the MODEL_TEMPORARILY_UNAVAILABLE reason. -/
def c2_body : WireBody :=
  { raw := "\x7b\"reason\":\"MODEL_TEMPORARILY_UNAVAILABLE\"\x7d".toList,
    parsed := some (.obj [("reason".toList,
                           .str "MODEL_TEMPORARILY_UNAVAILABLE".toList)]) }

/-- C2, counterexample.  On a 500 response whose body carries the
MODEL_TEMPORARILY_UNAVAILABLE reason, the main `/v1/messages` retry loop
(`call_api_with_retry`) classifies the attempt as a plain transient retry
and performs no pool mutation at all — it never calls
`report_model_unavailable` (that check exists only in
`call_mcp_with_retry`), contradicting the claim. -/
theorem c2_counterexample :
    is_model_temporarily_unavailable c2_body = true ∧
    classify_api_attempt 500 c2_body false = .transientRetry ∧
    ApiStep.transientRetry ≠ ApiStep.reportModelUnavailable := by
  decide

/-- C2, amended: it is the *MCP* retry loop (`call_mcp_with_retry`) that,
for every 408/429/5xx response whose body carries the
MODEL_TEMPORARILY_UNAVAILABLE reason, invokes `report_model_unavailable`,
and its transient branch bails out exactly when that call returns true
(global disablement tripped), continuing with backoff otherwise. -/
theorem c2_amended (status : Nat) (body : WireBody) (forced_refresh_is_new : Bool)
    (hs : status = 408 ∨ status = 429 ∨ (500 ≤ status ∧ status ≤ 599))
    (hb : is_model_temporarily_unavailable body = true) :
    classify_mcp_attempt status body forced_refresh_is_new = .reportModelUnavailable ∧
    mcp_transient_bails body true = True ∧
    mcp_transient_bails body false = False := by
  refine ⟨?_, ?_, ?_⟩
  · unfold classify_mcp_attempt
    rw [if_neg (by omega : ¬ (200 ≤ status ∧ status ≤ 299)),
        if_neg (by rintro ⟨h, -⟩; omega : ¬ (status = 402 ∧ is_monthly_request_limit body)),
        if_neg (by omega : ¬ status = 400),
        if_neg (by rintro (h | h) <;> omega : ¬ (status = 401 ∨ status = 403)),
        if_pos hs, if_pos hb]
  · simp [mcp_transient_bails, hb]
  · simp [mcp_transient_bails, hb]

/-- C2, witness for the amended theorem at the concrete body and a 500
status. -/
theorem c2_amended_witness :
    classify_mcp_attempt 500 c2_body false = .reportModelUnavailable ∧
    mcp_transient_bails c2_body true = True ∧
    mcp_transient_bails c2_body false = False :=
  c2_amended 500 c2_body false (by omega) (by decide)

/-! ## Claim C5: profile-ARN injection -/

/-- Whether an `InjectResult` is the error case. -/
def InjectResult.isErr : InjectResult → Bool
  | .err => true
  | _ => false

/-- Whether a wire body parsed as a JSON object. -/
def parsedIsObj (body : WireBody) : Bool :=
  match body.parsed with
  | some (.obj _) => true
  | _ => false

/-- A request body that is valid JSON but not an object. -/
def c5_body : WireBody := { raw := "[1,2]".toList, parsed := some (.arr [.num 1, .num 2]) }

/-- C5, counterexample.  With a credential carrying a profile ARN and a
non-object request body, `inject_profile_arn` does return an error — but
`call_api_with_retry` catches it, logs a warning, and sends the *original*
body unchanged; the call is not aborted with an internal error as the
claim states. -/
theorem c5_counterexample :
    (inject_profile_arn c5_body (some "arn:aws:codewhisperer:p".toList)).isErr = true ∧
    final_request_body c5_body (some "arn:aws:codewhisperer:p".toList) = "[1,2]".toList := by
  decide

theorem jsonGet_map_replace (fields : List (RStr × JsonV)) (key : RStr) (v : JsonV)
    (h : fields.any (fun p => p.1 = key) = true) :
    jsonGet (fields.map (fun p => if p.1 = key then (p.1, v) else p)) key = some v := by
  induction fields with
  | nil => simp at h
  | cons p rest ih =>
    by_cases hp : p.1 = key
    · simp [jsonGet, hp]
    · have h2 : rest.any (fun p => p.1 = key) = true := by
        simp only [List.any_cons, Bool.or_eq_true, decide_eq_true_eq] at h
        rcases h with h | h
        · exact absurd h hp
        · simpa using h
      simpa [jsonGet, hp] using ih h2

theorem jsonGet_append_single (fields : List (RStr × JsonV)) (key : RStr) (v : JsonV)
    (h : fields.any (fun p => p.1 = key) = false) :
    jsonGet (fields ++ [(key, v)]) key = some v := by
  induction fields with
  | nil => simp [jsonGet]
  | cons p rest ih =>
    simp only [List.any_cons, Bool.or_eq_false_iff, decide_eq_false_iff_not] at h
    simpa [jsonGet, h.1] using ih (by simpa using h.2)

theorem jsonGet_jsonInsert (fields : List (RStr × JsonV)) (key : RStr) (v : JsonV) :
    jsonGet (jsonInsert fields key v) key = some v := by
  unfold jsonInsert
  split_ifs with h
  · exact jsonGet_map_replace fields key v h
  · exact jsonGet_append_single fields key v (by rwa [Bool.not_eq_true] at h)

/-- C5, amended: when the credential has no profile ARN the body is sent
byte-for-byte unchanged; when it has one and the body parses as a JSON
object, the body is re-serialized with `profileArn` set to the
credential's ARN (overriding any caller value); when the body does not
parse as an object, `inject_profile_arn` fails but the engine catches the
error and sends the original body unchanged — the call is not aborted. -/
theorem c5_amended (body : WireBody) (arn : RStr) :
    (final_request_body body none = body.raw) ∧
    (∀ fields, body.parsed = some (.obj fields) →
      inject_profile_arn body (some arn) =
        .reserialized (.obj (jsonInsert fields "profileArn".toList (.str arn))) ∧
      jsonGet (jsonInsert fields "profileArn".toList (.str arn)) "profileArn".toList =
        some (.str arn) ∧
      final_request_body body (some arn) =
        jsonChars (.obj (jsonInsert fields "profileArn".toList (.str arn)))) ∧
    (parsedIsObj body = false →
      (inject_profile_arn body (some arn)).isErr = true ∧
      final_request_body body (some arn) = body.raw) := by
  refine ⟨rfl, ?_, ?_⟩
  · intro fields hp
    refine ⟨?_, jsonGet_jsonInsert fields "profileArn".toList (.str arn), ?_⟩
    · unfold inject_profile_arn
      rw [hp]
    · unfold final_request_body inject_profile_arn
      rw [hp]
  · intro hobj
    unfold parsedIsObj at hobj
    unfold final_request_body inject_profile_arn InjectResult.isErr
    cases hp : body.parsed with
    | none => simp
    | some v =>
      rw [hp] at hobj
      cases v <;> simp_all

/-- C5, witness for the amended theorem at the concrete non-object body. -/
theorem c5_amended_witness :
    (final_request_body c5_body none = c5_body.raw) ∧
    parsedIsObj c5_body = false ∧
    (inject_profile_arn c5_body (some "arn:aws:codewhisperer:p".toList)).isErr = true ∧
    final_request_body c5_body (some "arn:aws:codewhisperer:p".toList) = c5_body.raw := by
  have h := c5_amended c5_body "arn:aws:codewhisperer:p".toList
  have h3 := h.2.2 (by decide)
  exact ⟨h.1, by decide, h3.1, h3.2⟩

/-! ## Claim C7: failure counters and the failure-limit disable -/

theorem findById_updateFirstById (entries : List CredentialEntry) (id : Nat)
    (f : CredentialEntry → CredentialEntry) (hf : ∀ e, (f e).id = e.id) :
    findById (updateFirstById entries id f) id = (findById entries id).map f := by
  induction entries with
  | nil => rfl
  | cons e rest ih =>
    by_cases he : e.id = id
    · simp [updateFirstById, findById, he, hf]
    · simp [updateFirstById, findById, he, ih]

theorem report_failure_below_limit (s : PoolState) (id : Nat) (e : CredentialEntry)
    (he : findById s.entries id = some e)
    (hlt : e.failure_count + 1 < MAX_FAILURES_PER_CREDENTIAL) :
    findById (report_failure s id).1.entries id =
      some { e with failure_count := e.failure_count + 1 } ∧
    (report_failure s id).1.affinity = s.affinity := by
  simp only [report_failure, he]
  rw [if_neg (by omega)]
  refine ⟨?_, rfl⟩
  have hrw := findById_updateFirstById s.entries id
    (fun x => { x with failure_count := e.failure_count + 1 }) (fun _ => rfl)
  rw [hrw, he]
  rfl

theorem report_failure_at_limit (s : PoolState) (id : Nat) (e : CredentialEntry)
    (he : findById s.entries id = some e)
    (hge : MAX_FAILURES_PER_CREDENTIAL ≤ e.failure_count + 1) :
    findById (report_failure s id).1.entries id =
      some { e with failure_count := e.failure_count + 1, disabled := true,
                    auto_heal_reason := some .tooManyFailures,
                    disable_reason := some .failureLimit } ∧
    ∀ b ∈ (report_failure s id).1.affinity, ¬ b.2 = id := by
  simp only [report_failure, he]
  rw [if_pos hge]
  refine ⟨?_, ?_⟩
  · have hrw := findById_updateFirstById s.entries id
      (fun x => { x with failure_count := e.failure_count + 1, disabled := true,
                         auto_heal_reason := some AutoHealReason.tooManyFailures,
                         disable_reason := some DisableReason.failureLimit }) (fun _ => rfl)
    rw [hrw, he]
    rfl
  · intro b hb
    simp only [List.mem_filter, decide_eq_true_eq] at hb
    exact hb.2

/-- C7: `report_success(id)` sets the entry's failure count to 0 whatever
its previous value, and two consecutive `report_failure(id)` from failure
count 0 (no intervening `report_success`) leave the entry disabled with
disable reason `failure_limit` and auto-heal tag `too_many_failures`, and
drop every user-affinity binding to that id. -/
theorem c7_report_transitions (s : PoolState) (id : Nat) (e : CredentialEntry)
    (he : findById s.entries id = some e) :
    findById (report_success s id).entries id = some { e with failure_count := 0 } ∧
    (e.failure_count = 0 →
      findById ((report_failure (report_failure s id).1 id).1).entries id =
        some { e with failure_count := 2, disabled := true,
                      auto_heal_reason := some .tooManyFailures,
                      disable_reason := some .failureLimit } ∧
      ∀ b ∈ ((report_failure (report_failure s id).1 id).1).affinity, ¬ b.2 = id) := by
  refine ⟨?_, ?_⟩
  · simp only [report_success]
    have hrw := findById_updateFirstById s.entries id
      (fun x => { x with failure_count := 0 }) (fun _ => rfl)
    rw [hrw, he]
    rfl
  · intro h0
    obtain ⟨hf1, -⟩ := report_failure_below_limit s id e he
      (by rw [h0]; simp [MAX_FAILURES_PER_CREDENTIAL])
    obtain ⟨hf2, ha2⟩ := report_failure_at_limit ((report_failure s id).1) id _ hf1
      (by simp [MAX_FAILURES_PER_CREDENTIAL])
    refine ⟨?_, ha2⟩
    rw [hf2]
    simp [h0]

/-- A one-entry pool with a clean credential and one affinity binding. -/
def c7_pool : PoolState :=
  { entries := [{ id := 1, refresh_token := none, failure_count := 0, disabled := false,
                  disable_reason := none, auto_heal_reason := none }],
    model_unavailable_count := 0, global_recovery_time := none,
    affinity := [("user-a".toList, 1)] }

/-- A one-entry pool whose credential already carries one recorded
failure, so that `report_success` has a genuinely nonzero count to reset. -/
def c7_pool_f1 : PoolState :=
  { entries := [{ id := 1, refresh_token := none, failure_count := 1, disabled := false,
                  disable_reason := none, auto_heal_reason := none }],
    model_unavailable_count := 0, global_recovery_time := none,
    affinity := [("user-a".toList, 1)] }

/-- C7, witness: on the one-failure pool `report_success` resets the count
from 1 to 0 (non-vacuously), and on the clean pool the double-failure
transition disables the entry and drops its affinity binding. -/
theorem c7_report_transitions_witness :
    (findById (report_success c7_pool_f1 1).entries 1 =
      some { id := 1, refresh_token := none, failure_count := 0, disabled := false,
             disable_reason := none, auto_heal_reason := none }) ∧
    findById ((report_failure (report_failure c7_pool 1).1 1).1).entries 1 =
      some { id := 1, refresh_token := none, failure_count := 2, disabled := true,
             auto_heal_reason := some .tooManyFailures,
             disable_reason := some .failureLimit } ∧
    ∀ b ∈ ((report_failure (report_failure c7_pool 1).1 1).1).affinity, ¬ b.2 = 1 := by
  refine ⟨?_, ?_⟩
  · exact (c7_report_transitions c7_pool_f1 1
      { id := 1, refresh_token := none, failure_count := 1, disabled := false,
        disable_reason := none, auto_heal_reason := none } (by decide)).1
  · exact (c7_report_transitions c7_pool 1
      { id := 1, refresh_token := none, failure_count := 0, disabled := false,
        disable_reason := none, auto_heal_reason := none } (by decide)).2 (by decide)

/-! ## Claim C8: permanence of quota / balance disablement -/

/-- The quota-disabled one-entry pool (after `report_quota_exhausted`). -/
def c8_s1 : PoolState := (report_quota_exhausted c7_pool 1).1

/-- The same pool after a subsequent `report_failure` on the already
disabled entry. -/
def c8_s2 : PoolState := (report_failure c8_s1 1).1

/-- The same pool after the acquire self-heal pass (no admin operation
anywhere in the sequence). -/
def c8_s3 : PoolState := acquireSelfHeal c8_s2 []

/-- C8, counterexample.  `report_quota_exhausted` disables the entry with
reason `quota_exceeded`; a subsequent `report_failure` on the disabled
entry (e.g. from a request that had acquired it before the quota report)
overwrites the reason to `failure_limit` and sets the heal tag
`too_many_failures`; the next `acquire`'s self-heal then re-enables the
entry — a non-admin operation sequence clears the disabled flag of an
entry that had been disabled via `report_quota_exhausted`. -/
theorem c8_counterexample :
    (findById c8_s1.entries 1).map (fun e => (e.disabled, e.disable_reason)) =
      some (true, some .quotaExceeded) ∧
    (findById c8_s2.entries 1).map
        (fun e => (e.disabled, e.disable_reason, e.auto_heal_reason)) =
      some (true, some .failureLimit, some .tooManyFailures) ∧
    (findById c8_s3.entries 1).map (fun e => e.disabled) = some false := by
  decide

/-- C8, amended: as long as the entry still carries disable reason
`quota_exceeded` or `insufficient_balance` and its auto-heal tag is not
`too_many_failures` (the state `report_quota_exhausted` and
`mark_insufficient_balance` produce, since neither sets that tag), the
entry passes through both the acquire self-heal and the global recovery
check untouched — neither clears its disabled flag; the protection is
however not permanent: a later `report_failure` on the entry rewrites
reason and tag, after which the self-heal re-enables it
(`c8_counterexample`). -/
theorem c8_amended (s : PoolState) (tried_ids : List Nat) (now : Nat) (e : CredentialEntry)
    (he : e ∈ s.entries)
    (hr : e.disable_reason = some .quotaExceeded ∨
          e.disable_reason = some .insufficientBalance)
    (ht : ¬ e.auto_heal_reason = some .tooManyFailures) :
    e ∈ (acquireSelfHeal s tried_ids).entries ∧
    e ∈ (check_and_recover s now).1.entries := by
  constructor
  · have hmem := List.mem_map_of_mem (fun x : CredentialEntry =>
      if x.auto_heal_reason = some AutoHealReason.tooManyFailures then
        { x with disabled := false, auto_heal_reason := none, disable_reason := none,
                 failure_count := 0 }
      else x) he
    simp only [acquireSelfHeal]
    split_ifs with hcond
    · first
      | exact he
      | simpa [ht] using hmem
    · first
      | exact he
      | simpa [ht] using hmem
  · have hne : ¬ (e.disabled = true ∧
        e.disable_reason = some DisableReason.modelUnavailable) := by
      rintro ⟨-, hmu⟩
      rcases hr with hq | hq <;> rw [hq] at hmu <;> simp at hmu
    have hmem := List.mem_map_of_mem (fun x : CredentialEntry =>
      if x.disabled = true ∧ x.disable_reason = some DisableReason.modelUnavailable then
        { x with disabled := false, disable_reason := none, failure_count := 0 }
      else x) he
    simp only [check_and_recover]
    split_ifs with hcond
    · first
      | exact he
      | simpa [hne] using hmem
    · first
      | exact he
      | simpa [hne] using hmem

/-- C8, witness for the amended theorem at the quota-disabled pool. -/
theorem c8_amended_witness :
    { id := 1, refresh_token := none, failure_count := 2, disabled := true,
      disable_reason := some DisableReason.quotaExceeded,
      auto_heal_reason := none : CredentialEntry } ∈ (acquireSelfHeal c8_s1 []).entries ∧
    { id := 1, refresh_token := none, failure_count := 2, disabled := true,
      disable_reason := some DisableReason.quotaExceeded,
      auto_heal_reason := none : CredentialEntry } ∈ (check_and_recover c8_s1 0).1.entries :=
  c8_amended c8_s1 [] 0
    { id := 1, refresh_token := none, failure_count := 2, disabled := true,
      disable_reason := some DisableReason.quotaExceeded, auto_heal_reason := none }
    (by decide) (Or.inl rfl) (by decide)

/-! ## Claim C3: tool-result smart truncation bound -/

/-- C3, counterexample.  A single-line tool-result fragment of ten
characters with `max = 5`, `head_lines = 3`, `tail_lines = 2` exceeds the
limit, so the truncation pass calls `smart_truncate_by_lines` on it; the
text has fewer lines than `head_lines + tail_lines`, and in that branch
the composed half-head/half-tail result with its omission marker is
returned *without* the final hard truncation — the output has 32
characters, far above `max = 5`. -/
theorem c3_counterexample :
    (List.replicate 10 'a').length > 5 ∧
    (smart_truncate_by_lines (List.replicate 10 'a') 5 3 2).1.length = 32 ∧
    ¬ (smart_truncate_by_lines (List.replicate 10 'a') 5 3 2).1.length ≤ 5 := by
  decide

/-- C3, amended: the character-count bound `≤ max` holds whenever the
fragment splits into more than `head_lines + tail_lines` lines (there the
composed head/tail result is hard-truncated to `max` characters); in the
few-lines fallback branch the result is half-head plus half-tail plus the
omission marker and exceeds `max` by the marker's length. -/
theorem c3_amended (text : RStr) (max_chars head_lines tail_lines : Nat)
    (hlines : head_lines + tail_lines < (rustLines text).length) :
    (smart_truncate_by_lines text max_chars head_lines tail_lines).1.length ≤ max_chars := by
  simp only [smart_truncate_by_lines]
  split_ifs with h1 h2 h3 h4
  · exact h1
  · exact absurd h2 (by omega)
  · exact absurd h2 (by omega)
  · exact le_trans (le_of_eq (List.length_take _ _)) (Nat.min_le_left _ _)
  · exact Nat.le_of_not_lt h4

/-- C3, witness for the amended theorem: a six-line text with
`head_lines = 3`, `tail_lines = 2` stays within `max = 4`. -/
theorem c3_amended_witness :
    (smart_truncate_by_lines "a\nb\nc\nd\ne\nf".toList 4 3 2).1.length ≤ 4 :=
  c3_amended "a\nb\nc\nd\ne\nf".toList 4 3 2 (by decide)

/-! ## Claim C9: char-limited history truncation -/

/-- A four-message history (system pair plus one turn), forty characters
in total. -/
def c9_history : List Message :=
  [.user (UserInputMessage.new (List.replicate 10 'a') "claude-sonnet-4.5".toList),
   .assistant { content := List.replicate 10 'b', tool_uses := none },
   .user (UserInputMessage.new (List.replicate 10 'c') "claude-sonnet-4.5".toList),
   .assistant { content := List.replicate 10 'd', tool_uses := none }]

/-- C9, counterexample.  With a char limit of 1 and a four-message
history totalling forty characters, the pass removes nothing: its loop
breaks as soon as at most four messages remain (`len <= preserve_count +
2`), so the history stays at four messages over the limit — the claim's
"continues until the total drops to or below the limit or only the system
pair (exactly 2 messages) remains" does not hold. -/
theorem c9_counterexample :
    (compress_history_pass c9_history 0 1).1.length = 4 ∧
    ((compress_history_pass c9_history 0 1).1.map msgChars).sum = 40 ∧
    ¬ (((compress_history_pass c9_history 0 1).1.map msgChars).sum ≤ 1 ∨
       (compress_history_pass c9_history 0 1).1.length = 2) := by
  decide

theorem removePairAt2_length (h : List Message) :
    (removePairAt2 h).length = min 2 h.length + (h.length - 4) := by
  simp [removePairAt2]

theorem historyCharsLoop_take2 (max_chars : Nat) (fuel : Nat) (h : List Message) :
    (historyCharsLoop max_chars fuel h).1.take 2 = h.take 2 := by
  induction fuel generalizing h with
  | zero => rfl
  | succ fuel ih =>
    simp only [historyCharsLoop]
    split_ifs with hc
    · rfl
    · have hlen : 4 < h.length := by
        rcases not_or.mp hc with ⟨-, h2⟩
        omega
      show List.take 2 (historyCharsLoop max_chars fuel (removePairAt2 h)).1 = List.take 2 h
      rw [ih (removePairAt2 h)]
      unfold removePairAt2
      rw [List.take_append_of_le_length (by simp [List.length_take]; omega)]
      rw [List.take_take]
      simp

theorem historyCharsLoop_post (max_chars : Nat) (fuel : Nat) (h : List Message)
    (hfuel : h.length ≤ fuel) :
    ((historyCharsLoop max_chars fuel h).1.map msgChars).sum ≤ max_chars ∨
      (historyCharsLoop max_chars fuel h).1.length ≤ 4 := by
  induction fuel generalizing h with
  | zero =>
    have hnil : h = [] := List.length_eq_zero.mp (by omega)
    subst hnil
    simp [historyCharsLoop]
  | succ fuel ih =>
    simp only [historyCharsLoop]
    split_ifs with hc
    · simpa using hc
    · have hlen : 4 < h.length := by
        rcases not_or.mp hc with ⟨-, h2⟩
        omega
      have hrm : (removePairAt2 h).length ≤ fuel := by
        rw [removePairAt2_length]
        omega
      show (List.map msgChars (historyCharsLoop max_chars fuel (removePairAt2 h)).1).sum ≤
          max_chars ∨ (historyCharsLoop max_chars fuel (removePairAt2 h)).1.length ≤ 4
      exact ih (removePairAt2 h) hrm

/-- C9, amended: with a char limit configured (and turn truncation off),
the pass preserves the first two messages unchanged, stops exactly when
the history total drops to or below the limit *or at most four messages
(the system pair plus one final turn) remain*, and never leaves the list
shorter than two messages when it had at least two. -/
theorem c9_amended (history : List Message) (max_chars : Nat) (hc : 0 < max_chars) :
    (compress_history_pass history 0 max_chars).1.take 2 = history.take 2 ∧
    (((compress_history_pass history 0 max_chars).1.map msgChars).sum ≤ max_chars ∨
      (compress_history_pass history 0 max_chars).1.length ≤ 4) ∧
    (2 ≤ history.length → 2 ≤ (compress_history_pass history 0 max_chars).1.length) := by
  have hpass : (compress_history_pass history 0 max_chars).1 =
      (historyCharsLoop max_chars history.length history).1 := by
    simp [compress_history_pass, hc]
  rw [hpass]
  have ht2 := historyCharsLoop_take2 max_chars history.length history
  refine ⟨ht2, historyCharsLoop_post max_chars history.length history (le_refl _), ?_⟩
  intro h2
  have : ((historyCharsLoop max_chars history.length history).1.take 2).length =
      (history.take 2).length := by rw [ht2]
  simp only [List.length_take] at this
  omega

/-- C9, witness for the amended theorem at the concrete four-message
history. -/
theorem c9_amended_witness :
    (compress_history_pass c9_history 0 1).1.take 2 = c9_history.take 2 ∧
    (((compress_history_pass c9_history 0 1).1.map msgChars).sum ≤ 1 ∨
      (compress_history_pass c9_history 0 1).1.length ≤ 4) ∧
    (2 ≤ c9_history.length → 2 ≤ (compress_history_pass c9_history 0 1).1.length) :=
  c9_amended c9_history 1 (by decide)

/-! ## Claim C10: assistant messages without a pending user message -/

/-- C10: the history loop of `build_history` emits an assistant message
only when the user-message buffer is non-empty — an assistant message
arriving with an empty buffer (a conversation starting with an assistant
message, or a second consecutive assistant message) is skipped outright,
so its content never reaches the upstream body. -/
theorem c10_assistant_dropped (model_id : RStr) (m : AMessage) (rest : List AMessage)
    (acc : List Message) (h : m.role = "assistant".toList) :
    historyLoop model_id (m :: rest) [] acc = historyLoop model_id rest [] acc := by
  conv_lhs => rw [historyLoop]
  rw [if_neg (by rw [h]; decide), if_pos h, if_neg (by simp)]

/-- C10, witness: a leading assistant message contributes nothing to the
history. -/
theorem c10_assistant_dropped_witness :
    historyLoop "claude-sonnet-4.5".toList
        [{ role := "assistant".toList, content := .str "hello".toList }] [] [] =
      historyLoop "claude-sonnet-4.5".toList [] [] [] :=
  c10_assistant_dropped "claude-sonnet-4.5".toList
    { role := "assistant".toList, content := .str "hello".toList } [] [] rfl

/-! ## Claim C4: idempotence of the compression pipeline -/

/-- The tool-result fragments of this request exceed the configured
limit, so the smart truncation rewrites them on *every* run: the re-run
re-truncates the marker-bearing text it produced.  Config: only the
tool-result pass enabled. -/
def c4_cfg : CompressionConfig :=
  { enabled := true, whitespace_compression := false, thinking_strategy := "keep".toList,
    tool_result_max_chars := 5, tool_result_head_lines := 3, tool_result_tail_lines := 2,
    tool_use_input_max_chars := 0, max_history_turns := 0, max_history_chars := 0 }

/-- A conversation whose current message carries one ten-character
tool-result text fragment. -/
def c4_state : ConversationState :=
  { conversation_id := "c4".toList, agent_continuation_id := "a4".toList,
    agent_task_type := "vibe".toList, chat_trigger_type := "MANUAL".toList,
    history := [],
    current_message :=
      { content := "hi".toList, model_id := "claude-sonnet-4.5".toList, images := [],
        user_input_message_context :=
          { tools := [],
            tool_results := [{ tool_use_id := "t1".toList,
                               content := [[("text".toList,
                                             JsonV.str (List.replicate 10 'a'))]],
                               status := some "success".toList }] },
        origin := none } }

/-- The text of the first fragment of the first current-message tool
result. -/
def firstCurrentToolResultText (st : ConversationState) : Option RStr :=
  match st.current_message.user_input_message_context.tool_results with
  | r :: _ =>
    match r.content with
    | m :: _ => jsonGetStr m "text".toList
    | [] => none
  | [] => none

/-- C4, counterexample.  Running `compress` twice on this body does not
equal running it once: the first run turns the ten-character fragment
into `"aa\n... [5 chars omitted] ...\naaa"` (32 chars, still above the
limit because the few-lines branch does not hard-truncate), and the
second run re-truncates that into `"aa\n... [27 chars omitted] ...\naaa"`.
The pipeline is not idempotent. -/
theorem c4_counterexample :
    firstCurrentToolResultText (compress (compress c4_state c4_cfg).1 c4_cfg).1 ≠
      firstCurrentToolResultText (compress c4_state c4_cfg).1 ∧
    (compress (compress c4_state c4_cfg).1 c4_cfg).1 ≠ (compress c4_state c4_cfg).1 := by
  have hne : firstCurrentToolResultText (compress (compress c4_state c4_cfg).1 c4_cfg).1 ≠
      firstCurrentToolResultText (compress c4_state c4_cfg).1 := by decide
  exact ⟨hne, fun he => hne (congrArg firstCurrentToolResultText he)⟩

theorem historyTurnsLoop_noop (m fuel : Nat) (h : List Message)
    (hc : ¬ (m < h.length ∧ 4 < h.length)) : historyTurnsLoop m fuel h = (h, 0) := by
  cases fuel with
  | zero => rfl
  | succ fuel =>
    simp only [historyTurnsLoop]
    rw [if_neg hc]

theorem historyTurnsLoop_post (m fuel : Nat) (h : List Message) (hfuel : h.length ≤ fuel) :
    ¬ (m < (historyTurnsLoop m fuel h).1.length ∧
       4 < (historyTurnsLoop m fuel h).1.length) := by
  induction fuel generalizing h with
  | zero =>
    have hnil : h = [] := List.length_eq_zero.mp (by omega)
    subst hnil
    simp [historyTurnsLoop]
  | succ fuel ih =>
    simp only [historyTurnsLoop]
    split_ifs with hc
    · have hrm : (removePairAt2 h).length ≤ fuel := by
        rw [removePairAt2_length]
        omega
      show ¬ (m < (historyTurnsLoop m fuel (removePairAt2 h)).1.length ∧
              4 < (historyTurnsLoop m fuel (removePairAt2 h)).1.length)
      exact ih (removePairAt2 h) hrm
    · exact hc

theorem historyCharsLoop_noop (mc fuel : Nat) (h : List Message)
    (hc : (h.map msgChars).sum ≤ mc ∨ h.length ≤ 4) :
    historyCharsLoop mc fuel h = (h, 0) := by
  cases fuel with
  | zero => rfl
  | succ fuel =>
    simp only [historyCharsLoop]
    rw [if_pos hc]

theorem historyCharsLoop_len_le (mc fuel : Nat) (h : List Message) :
    (historyCharsLoop mc fuel h).1.length ≤ h.length := by
  induction fuel generalizing h with
  | zero => exact le_refl _
  | succ fuel ih =>
    simp only [historyCharsLoop]
    split_ifs with hc
    · exact le_refl _
    · have hlen : 4 < h.length := by
        rcases not_or.mp hc with ⟨-, h2⟩
        omega
      have := ih (removePairAt2 h)
      have hrl : (removePairAt2 h).length = h.length - 2 := by
        rw [removePairAt2_length]
        omega
      show (historyCharsLoop mc fuel (removePairAt2 h)).1.length ≤ h.length
      omega

/-- The turn-limit phase of `compress_history_pass` (its first `if`). -/
def turnsPhase (h : List Message) (t : Nat) : List Message :=
  if 0 < t then (historyTurnsLoop (2 + t * 2) h.length h).1 else h

/-- The char-limit phase of `compress_history_pass` (its second `if`). -/
def charsPhase (h : List Message) (c : Nat) : List Message :=
  if 0 < c then (historyCharsLoop c h.length h).1 else h

theorem compress_history_pass_fst (h : List Message) (t c : Nat) :
    (compress_history_pass h t c).1 = charsPhase (turnsPhase h t) c := by
  unfold compress_history_pass turnsPhase charsPhase
  by_cases ht : 0 < t <;> by_cases hc : 0 < c <;> simp [ht, hc]

theorem turnsPhase_noop (h : List Message) (t : Nat)
    (hc : ¬ ((2 + t * 2) < h.length ∧ 4 < h.length)) : turnsPhase h t = h := by
  unfold turnsPhase
  split_ifs with ht
  · rw [historyTurnsLoop_noop _ _ _ hc]
  · rfl

theorem turnsPhase_post (h : List Message) (t : Nat) (ht : 0 < t) :
    ¬ ((2 + t * 2) < (turnsPhase h t).length ∧ 4 < (turnsPhase h t).length) := by
  unfold turnsPhase
  rw [if_pos ht]
  exact historyTurnsLoop_post (2 + t * 2) h.length h (le_refl _)

theorem charsPhase_noop (h : List Message) (c : Nat)
    (hc : (h.map msgChars).sum ≤ c ∨ h.length ≤ 4) : charsPhase h c = h := by
  unfold charsPhase
  split_ifs with h0
  · rw [historyCharsLoop_noop _ _ _ hc]
  · rfl

theorem charsPhase_post (h : List Message) (c : Nat) (h0 : 0 < c) :
    ((charsPhase h c).map msgChars).sum ≤ c ∨ (charsPhase h c).length ≤ 4 := by
  unfold charsPhase
  rw [if_pos h0]
  exact historyCharsLoop_post c h.length h (le_refl _)

theorem charsPhase_len_le (h : List Message) (c : Nat) :
    (charsPhase h c).length ≤ h.length := by
  unfold charsPhase
  split_ifs with h0
  · exact historyCharsLoop_len_le c h.length h
  · exact le_refl _

theorem compress_history_pass_idem (h : List Message) (t c : Nat) :
    (compress_history_pass (compress_history_pass h t c).1 t c).1 =
      (compress_history_pass h t c).1 := by
  rw [compress_history_pass_fst, compress_history_pass_fst]
  have hT : turnsPhase (charsPhase (turnsPhase h t) c) t = charsPhase (turnsPhase h t) c := by
    by_cases ht : 0 < t
    · apply turnsPhase_noop
      have hp := turnsPhase_post h t ht
      have hl := charsPhase_len_le (turnsPhase h t) c
      omega
    · unfold turnsPhase
      rw [if_neg ht]
  rw [hT]
  by_cases hc : 0 < c
  · exact charsPhase_noop _ c (charsPhase_post (turnsPhase h t) c hc)
  · unfold charsPhase
    rw [if_neg hc]

theorem compress_fst_history_only (state : ConversationState) (cfg : CompressionConfig)
    (h1 : cfg.enabled = true) (h2 : cfg.whitespace_compression = false)
    (h3 : cfg.thinking_strategy = "keep".toList) (h4 : cfg.tool_result_max_chars = 0)
    (h5 : cfg.tool_use_input_max_chars = 0) :
    (compress state cfg).1 =
      { state with history :=
          (compress_history_pass state.history cfg.max_history_turns
            cfg.max_history_chars).1 } := by
  unfold compress
  rw [if_neg (by simp [h1])]
  by_cases hg : 0 < cfg.max_history_turns ∨ 0 < cfg.max_history_chars
  · simp [h2, h3, h4, h5, hg]
  · have ht0 : cfg.max_history_turns = 0 := by omega
    have hc0 : cfg.max_history_chars = 0 := by omega
    simp [h2, h3, h4, h5, hg, ht0, hc0, compress_history_pass]

/-- C4, amended: the compression pipeline *is* idempotent when the only
enabled pass is history truncation (whitespace off, thinking strategy
"keep", tool-result and tool-use-input limits zero, any turn/char
limits): both loops of the history pass re-run as no-ops on their own
output.  The string-truncation passes are what break idempotence
(`c4_counterexample`). -/
theorem c4_amended (state : ConversationState) (cfg : CompressionConfig)
    (h1 : cfg.enabled = true) (h2 : cfg.whitespace_compression = false)
    (h3 : cfg.thinking_strategy = "keep".toList) (h4 : cfg.tool_result_max_chars = 0)
    (h5 : cfg.tool_use_input_max_chars = 0) :
    (compress (compress state cfg).1 cfg).1 = (compress state cfg).1 := by
  have e1 := compress_fst_history_only state cfg h1 h2 h3 h4 h5
  rw [e1, compress_fst_history_only _ cfg h1 h2 h3 h4 h5]
  simp only [compress_history_pass_idem]

/-- History-only configuration for the idempotence witness. -/
def c4_cfg_w : CompressionConfig :=
  { enabled := true, whitespace_compression := false, thinking_strategy := "keep".toList,
    tool_result_max_chars := 0, tool_result_head_lines := 3, tool_result_tail_lines := 2,
    tool_use_input_max_chars := 0, max_history_turns := 1, max_history_chars := 8 }

/-- C4, witness for the amended theorem: the history-only pipeline is
idempotent on the concrete four-message history. -/
theorem c4_amended_witness :
    (compress (compress { c4_state with history := c9_history } c4_cfg_w).1 c4_cfg_w).1 =
      (compress { c4_state with history := c9_history } c4_cfg_w).1 :=
  c4_amended { c4_state with history := c9_history } c4_cfg_w rfl rfl rfl rfl rfl

/-! ## Claim C1: tool_use / tool_result pairing in the final body -/

/-- Every `tool_use_id` carried by the assistant messages of a history
(the tool uses present in the upstream body). -/
def bodyHistoryUseIds (history : List Message) : List RStr :=
  (history.map (fun m =>
    match m with
    | .assistant a => (a.tool_uses.getD []).map (fun tu => tu.tool_use_id)
    | .user _ => [])).flatten

/-- Every `tool_use_id` answered by a tool result inside the history's
user messages. -/
def bodyHistoryResultIds (history : List Message) : List RStr :=
  (history.map (fun m =>
    match m with
    | .user u => u.user_input_message_context.tool_results.map (fun r => r.tool_use_id)
    | .assistant _ => [])).flatten

/-- All tool-use ids of a converted body. -/
def bodyToolUseIds (st : ConversationState) : List RStr := bodyHistoryUseIds st.history

/-- All tool-result ids of a converted body: those carried by history
user messages plus those of the current message. -/
def bodyToolResultIds (st : ConversationState) : List RStr :=
  bodyHistoryResultIds st.history ++
    st.current_message.user_input_message_context.tool_results.map (fun r => r.tool_use_id)

/-- A tool_result content block answering the (nonexistent) tool use
"X". -/
def c1_orphan_result_block : ContentBlock :=
  { block_type := "tool_result".toList, text := none, thinking := none,
    tool_use_id := some "X".toList, content := some (.str "done".toList), name := none,
    input := none, id := none, is_error := none, source := none }

/-- A client request whose first user message carries a tool_result for an
id no assistant message ever used. -/
def c1_req : MessagesRequest :=
  { model := "claude-sonnet-4.5".toList, max_tokens := 100,
    messages :=
      [{ role := "user".toList, content := .blocks [c1_orphan_result_block] },
       { role := "assistant".toList, content := .str "ok".toList },
       { role := "user".toList, content := .str "hi".toList }],
    stream := false, system := none, tools := none, tool_choice := none, thinking := none,
    metadata := none }

/-- The converted request (fresh UUIDs passed explicitly). -/
def c1_converted : Except ConversionError ConversationState :=
  convert_request c1_req "00000000-0000-4000-8000-000000000000".toList
    "00000000-0000-4000-8000-000000000001".toList

/-- C1, counterexample.  Conversion succeeds and the final body carries
the tool_result with id "X" inside its history user message while
carrying *no* tool_use at all: `validate_tool_pairing` filters only the
current message's tool results and never validates tool results already
sitting in history user messages, so the claimed bijection fails — "X"
is a tool_result id matched by zero tool_uses. -/
theorem c1_counterexample :
    c1_converted.toOption.map bodyToolResultIds = some ["X".toList] ∧
    c1_converted.toOption.map bodyToolUseIds = some [] := by
  decide

theorem mem_setInsert (s : List RStr) (x y : RStr) :
    y ∈ setInsert s x ↔ y ∈ s ∨ y = x := by
  unfold setInsert
  split_ifs with h
  · constructor
    · exact Or.inl
    · rintro (hy | rfl)
      · exact hy
      · exact h
  · simp [List.mem_append]

theorem nodup_setInsert (s : List RStr) (x : RStr) (h : s.Nodup) : (setInsert s x).Nodup := by
  unfold setInsert
  split_ifs with hx
  · exact h
  · rw [List.nodup_append]
    refine ⟨h, List.nodup_singleton x, ?_⟩
    intro a ha hax
    rw [List.mem_singleton] at hax
    subst hax
    exact hx ha

theorem mem_foldl_setInsert {α : Type} (f : α → RStr) (l : List α) (acc : List RStr)
    (x : RStr) :
    x ∈ l.foldl (fun a e => setInsert a (f e)) acc ↔ x ∈ acc ∨ x ∈ l.map f := by
  induction l generalizing acc with
  | nil => simp
  | cons e rest ih =>
    simp only [List.foldl_cons, List.map_cons, List.mem_cons]
    rw [ih, mem_setInsert]
    tauto

theorem nodup_foldl_setInsert {α : Type} (f : α → RStr) (l : List α) (acc : List RStr)
    (h : acc.Nodup) : (l.foldl (fun a e => setInsert a (f e)) acc).Nodup := by
  induction l generalizing acc with
  | nil => exact h
  | cons e rest ih => exact ih (setInsert acc (f e)) (nodup_setInsert acc (f e) h)

theorem allToolUseIds_foldl_mem (history : List Message) (acc : List RStr) (x : RStr) :
    (x ∈ history.foldl (fun acc msg =>
        match msg with
        | .assistant a =>
          match a.tool_uses with
          | some tool_uses => tool_uses.foldl (fun acc2 tu => setInsert acc2 tu.tool_use_id) acc
          | none => acc
        | .user _ => acc) acc) ↔
      x ∈ acc ∨ x ∈ bodyHistoryUseIds history := by
  induction history generalizing acc with
  | nil => simp [bodyHistoryUseIds]
  | cons m rest ih =>
    cases m with
    | user u =>
      simp only [List.foldl_cons]
      rw [ih]
      simp [bodyHistoryUseIds]
    | assistant a =>
      cases htu : a.tool_uses with
      | none =>
        simp only [List.foldl_cons, htu]
        rw [ih]
        simp [bodyHistoryUseIds, htu]
      | some tus =>
        simp only [List.foldl_cons, htu]
        rw [ih, mem_foldl_setInsert]
        simp only [bodyHistoryUseIds, List.map_cons, List.flatten_cons, List.mem_append, htu,
          Option.getD_some]
        constructor
        · rintro ((h | h) | h)
          · exact Or.inl h
          · exact Or.inr (Or.inl h)
          · exact Or.inr (Or.inr h)
        · rintro (h | h | h)
          · exact Or.inl (Or.inl h)
          · exact Or.inl (Or.inr h)
          · exact Or.inr h

theorem mem_allToolUseIds (history : List Message) (x : RStr) :
    x ∈ allToolUseIds history ↔ x ∈ bodyHistoryUseIds history := by
  unfold allToolUseIds
  rw [allToolUseIds_foldl_mem]
  simp

theorem allToolUseIds_foldl_nodup (history : List Message) (acc : List RStr)
    (h : acc.Nodup) :
    (history.foldl (fun acc msg =>
        match msg with
        | .assistant a =>
          match a.tool_uses with
          | some tool_uses => tool_uses.foldl (fun acc2 tu => setInsert acc2 tu.tool_use_id) acc
          | none => acc
        | .user _ => acc) acc).Nodup := by
  induction history generalizing acc with
  | nil => exact h
  | cons m rest ih =>
    cases m with
    | user u => exact ih acc h
    | assistant a =>
      cases htu : a.tool_uses with
      | none =>
        simp only [List.foldl_cons, htu]
        exact ih acc h
      | some tus =>
        simp only [List.foldl_cons, htu]
        exact ih _ (nodup_foldl_setInsert (fun tu => tu.tool_use_id) tus acc h)

theorem nodup_allToolUseIds (history : List Message) : (allToolUseIds history).Nodup :=
  allToolUseIds_foldl_nodup history [] List.nodup_nil

theorem historyToolResultIds_foldl_mem (history : List Message) (acc : List RStr) (x : RStr) :
    (x ∈ history.foldl (fun acc msg =>
        match msg with
        | .user u =>
          u.user_input_message_context.tool_results.foldl
            (fun acc2 r => setInsert acc2 r.tool_use_id) acc
        | .assistant _ => acc) acc) ↔
      x ∈ acc ∨ x ∈ bodyHistoryResultIds history := by
  induction history generalizing acc with
  | nil => simp [bodyHistoryResultIds]
  | cons m rest ih =>
    cases m with
    | assistant a =>
      simp only [List.foldl_cons]
      rw [ih]
      simp [bodyHistoryResultIds]
    | user u =>
      simp only [List.foldl_cons]
      rw [ih, mem_foldl_setInsert]
      simp only [bodyHistoryResultIds, List.map_cons, List.flatten_cons, List.mem_append]
      constructor
      · rintro ((h | h) | h)
        · exact Or.inl h
        · exact Or.inr (Or.inl h)
        · exact Or.inr (Or.inr h)
      · rintro (h | h | h)
        · exact Or.inl (Or.inl h)
        · exact Or.inl (Or.inr h)
        · exact Or.inr h

theorem mem_historyToolResultIds (history : List Message) (x : RStr) :
    x ∈ historyToolResultIds history ↔ x ∈ bodyHistoryResultIds history := by
  unfold historyToolResultIds
  rw [historyToolResultIds_foldl_mem]
  simp

theorem validateLoop_unpaired_subset (all : List RStr) (rs : List ToolResult) :
    ∀ U, ∀ x ∈ (validateResultsLoop all rs U).2, x ∈ U := by
  induction rs with
  | nil =>
    intro U x hx
    simpa [validateResultsLoop] using hx
  | cons r0 rest ih =>
    intro U x hx
    simp only [validateResultsLoop] at hx
    split_ifs at hx with h1 h2
    · exact List.mem_of_mem_erase (ih _ x hx)
    · exact ih U x hx
    · exact ih U x hx

theorem validateLoop_kept_subset (all : List RStr) (rs : List ToolResult) :
    ∀ U, ∀ r ∈ (validateResultsLoop all rs U).1, r.tool_use_id ∈ U := by
  induction rs with
  | nil =>
    intro U r hr
    simp [validateResultsLoop] at hr
  | cons r0 rest ih =>
    intro U r hr
    simp only [validateResultsLoop] at hr
    split_ifs at hr with h1 h2
    · rcases List.mem_cons.mp hr with rfl | hr'
      · exact h1
      · exact List.mem_of_mem_erase (ih _ r hr')
    · exact ih U r hr
    · exact ih U r hr

theorem validateLoop_consumed (all : List RStr) (rs : List ToolResult) :
    ∀ U, ∀ x, x ∈ U → ¬ x ∈ (validateResultsLoop all rs U).2 →
      x ∈ (validateResultsLoop all rs U).1.map (fun r => r.tool_use_id) := by
  induction rs with
  | nil =>
    intro U x hxU hx
    exact absurd (by simpa [validateResultsLoop] using hxU) hx
  | cons r0 rest ih =>
    intro U x hxU hx
    simp only [validateResultsLoop] at hx ⊢
    split_ifs at hx ⊢ with h1 h2
    · by_cases hxr : x = r0.tool_use_id
      · simp [hxr]
      · have hxU' : x ∈ U.erase r0.tool_use_id := by
          rw [List.mem_erase_of_ne hxr]
          exact hxU
        have hmem := ih _ x hxU' hx
        simp only [List.map_cons, List.mem_cons]
        exact Or.inr hmem
    · exact ih U x hxU hx
    · exact ih U x hxU hx

theorem validateLoop_kept_nodup (all : List RStr) (rs : List ToolResult) :
    ∀ U, U.Nodup → ((validateResultsLoop all rs U).1.map (fun r => r.tool_use_id)).Nodup := by
  induction rs with
  | nil =>
    intro U hU
    simp [validateResultsLoop]
  | cons r0 rest ih =>
    intro U hU
    simp only [validateResultsLoop]
    split_ifs with h1 h2
    · simp only [List.map_cons, List.nodup_cons]
      constructor
      · intro hmem
        rcases List.mem_map.mp hmem with ⟨r, hr, hid⟩
        have h3 := validateLoop_kept_subset all rest _ r hr
        rw [hid] at h3
        exact hU.not_mem_erase h3
      · exact ih _ (hU.erase _)
    · exact ih U hU
    · exact ih U hU

theorem validateLoop_kept_not_unpaired (all : List RStr) (rs : List ToolResult) :
    ∀ U, U.Nodup →
      ∀ x ∈ (validateResultsLoop all rs U).1.map (fun r => r.tool_use_id),
        ¬ x ∈ (validateResultsLoop all rs U).2 := by
  induction rs with
  | nil =>
    intro U hU x hx
    simp [validateResultsLoop] at hx
  | cons r0 rest ih =>
    intro U hU x hx
    simp only [validateResultsLoop] at hx ⊢
    split_ifs at hx ⊢ with h1 h2
    · simp only [List.map_cons, List.mem_cons] at hx
      rcases hx with rfl | hx'
      · intro hmem
        exact hU.not_mem_erase (validateLoop_unpaired_subset all rest _ _ hmem)
      · exact ih _ (hU.erase _) x hx'
    · exact ih U hU x hx
    · exact ih U hU x hx

theorem bodyHistoryUseIds_cons (m : Message) (rest : List Message) :
    bodyHistoryUseIds (m :: rest) =
      (match m with
       | .assistant a => (a.tool_uses.getD []).map (fun tu => tu.tool_use_id)
       | .user _ => []) ++ bodyHistoryUseIds rest := by
  simp [bodyHistoryUseIds]

theorem bodyHistoryResultIds_cons (m : Message) (rest : List Message) :
    bodyHistoryResultIds (m :: rest) =
      (match m with
       | .user u => u.user_input_message_context.tool_results.map (fun r => r.tool_use_id)
       | .assistant _ => []) ++ bodyHistoryResultIds rest := by
  simp [bodyHistoryResultIds]

theorem filter_map_comm {α β : Type} (f : α → β) (p : β → Bool) (l : List α) :
    (l.map f).filter p = (l.filter (fun a => p (f a))).map f := by
  induction l with
  | nil => rfl
  | cons a rest ih => by_cases hp : p (f a) <;> simp [hp, ih]

theorem ite_isEmpty_getD {α : Type} (l : List α) :
    (if l.isEmpty = true then none else some l).getD ([] : List α) = l := by
  cases l <;> simp [List.isEmpty]

theorem bodyHistoryResultIds_remove (history : List Message) (orphans : List RStr) :
    bodyHistoryResultIds (remove_orphaned_tool_uses history orphans) =
      bodyHistoryResultIds history := by
  unfold remove_orphaned_tool_uses
  split_ifs with h
  · rfl
  · induction history with
    | nil => rfl
    | cons m rest ih =>
      rw [List.map_cons, bodyHistoryResultIds_cons, bodyHistoryResultIds_cons, ih]
      congr 1
      cases m with
      | user u => rfl
      | assistant a =>
        cases htu : a.tool_uses with
        | none => simp [htu]
        | some tus => simp [htu]

theorem bodyHistoryUseIds_remove (history : List Message) (orphans : List RStr) :
    bodyHistoryUseIds (remove_orphaned_tool_uses history orphans) =
      (bodyHistoryUseIds history).filter (fun x => ¬ x ∈ orphans) := by
  unfold remove_orphaned_tool_uses
  split_ifs with h
  · have horph : orphans = [] := by
      cases orphans with
      | nil => rfl
      | cons o rest => simp [List.isEmpty] at h
    subst horph
    simp
  · induction history with
    | nil => rfl
    | cons m rest ih =>
      rw [List.map_cons, bodyHistoryUseIds_cons, bodyHistoryUseIds_cons,
          List.filter_append, ih]
      congr 1
      cases m with
      | user u => rfl
      | assistant a =>
        cases htu : a.tool_uses with
        | none => simp [htu]
        | some tus =>
          simp only [htu]
          rw [ite_isEmpty_getD]
          exact (filter_map_comm (fun tu => tu.tool_use_id)
            (fun x => decide (¬ x ∈ orphans)) tus).symm

/-- C1, amended: the pairing repair is one-sided rather than a bijection.
After `validate_tool_pairing` plus `remove_orphaned_tool_uses`:
(a) every tool_use id remaining in the history is answered by a tool
result in the body — either one already in a history user message or one
of the kept current-message results; (b) the kept current-message results
have pairwise distinct ids; and (c) each kept id matches a surviving
history tool_use and does not duplicate a history-carried result id.
Tool results already sitting in history user messages are *not*
validated, so an orphan among them can remain in the body
(`c1_counterexample`) and the claimed bijection fails in that direction. -/
theorem c1_amended (history : List Message) (tool_results : List ToolResult) :
    (∀ u ∈ bodyHistoryUseIds
        (remove_orphaned_tool_uses history (validate_tool_pairing history tool_results).2),
      u ∈ bodyHistoryResultIds
          (remove_orphaned_tool_uses history (validate_tool_pairing history tool_results).2) ∨
      u ∈ (validate_tool_pairing history tool_results).1.map (fun r => r.tool_use_id)) ∧
    ((validate_tool_pairing history tool_results).1.map (fun r => r.tool_use_id)).Nodup ∧
    (∀ x ∈ (validate_tool_pairing history tool_results).1.map (fun r => r.tool_use_id),
      x ∈ bodyHistoryUseIds
          (remove_orphaned_tool_uses history (validate_tool_pairing history tool_results).2) ∧
      ¬ x ∈ bodyHistoryResultIds
          (remove_orphaned_tool_uses history (validate_tool_pairing history tool_results).2)) := by
  have hU0 : ((allToolUseIds history).filter
      (fun i => ¬ i ∈ historyToolResultIds history)).Nodup :=
    (nodup_allToolUseIds history).filter _
  refine ⟨?_, ?_, ?_⟩
  · intro u hu
    rw [bodyHistoryUseIds_remove, List.mem_filter] at hu
    obtain ⟨huB, huO⟩ := hu
    rw [decide_eq_true_eq] at huO
    by_cases hH : u ∈ historyToolResultIds history
    · left
      rw [bodyHistoryResultIds_remove]
      exact (mem_historyToolResultIds history u).mp hH
    · right
      have huA : u ∈ allToolUseIds history := (mem_allToolUseIds history u).mpr huB
      have huU0 : u ∈ (allToolUseIds history).filter
          (fun i => ¬ i ∈ historyToolResultIds history) := by
        rw [List.mem_filter]
        exact ⟨huA, by simpa using hH⟩
      exact validateLoop_consumed (allToolUseIds history) tool_results
        ((allToolUseIds history).filter (fun i => ¬ i ∈ historyToolResultIds history))
        u huU0 huO
  · exact validateLoop_kept_nodup (allToolUseIds history) tool_results
      ((allToolUseIds history).filter (fun i => ¬ i ∈ historyToolResultIds history)) hU0
  · intro x hx
    have hxU0 : x ∈ (allToolUseIds history).filter
        (fun i => ¬ i ∈ historyToolResultIds history) := by
      rcases List.mem_map.mp hx with ⟨r, hr, hid⟩
      have hsub := validateLoop_kept_subset (allToolUseIds history) tool_results
        ((allToolUseIds history).filter (fun i => ¬ i ∈ historyToolResultIds history)) r hr
      rwa [hid] at hsub
    rw [List.mem_filter] at hxU0
    obtain ⟨hxA, hxH⟩ := hxU0
    rw [decide_eq_true_eq] at hxH
    constructor
    · rw [bodyHistoryUseIds_remove, List.mem_filter]
      refine ⟨(mem_allToolUseIds history x).mp hxA, ?_⟩
      rw [decide_eq_true_eq]
      exact validateLoop_kept_not_unpaired (allToolUseIds history) tool_results
        ((allToolUseIds history).filter (fun i => ¬ i ∈ historyToolResultIds history))
        hU0 x hx
    · rw [bodyHistoryResultIds_remove]
      intro hmem
      exact hxH ((mem_historyToolResultIds history x).mpr hmem)

/-- A history with one assistant tool use "Y". -/
def c1_w_history : List Message :=
  [.assistant { content := [' '],
                tool_uses := some [{ tool_use_id := "Y".toList, name := "read".toList,
                                     input := .obj [] }] }]

/-- A current message answering "Y". -/
def c1_w_results : List ToolResult := [ToolResult.success "Y".toList "ok".toList]

/-- C1, witness for the amended theorem at a concrete one-pair history. -/
theorem c1_amended_witness :
    (∀ u ∈ bodyHistoryUseIds
        (remove_orphaned_tool_uses c1_w_history
          (validate_tool_pairing c1_w_history c1_w_results).2),
      u ∈ bodyHistoryResultIds
          (remove_orphaned_tool_uses c1_w_history
            (validate_tool_pairing c1_w_history c1_w_results).2) ∨
      u ∈ (validate_tool_pairing c1_w_history c1_w_results).1.map
            (fun r => r.tool_use_id)) ∧
    ((validate_tool_pairing c1_w_history c1_w_results).1.map
        (fun r => r.tool_use_id)).Nodup ∧
    (∀ x ∈ (validate_tool_pairing c1_w_history c1_w_results).1.map
        (fun r => r.tool_use_id),
      x ∈ bodyHistoryUseIds
          (remove_orphaned_tool_uses c1_w_history
            (validate_tool_pairing c1_w_history c1_w_results).2) ∧
      ¬ x ∈ bodyHistoryResultIds
          (remove_orphaned_tool_uses c1_w_history
            (validate_tool_pairing c1_w_history c1_w_results).2)) :=
  c1_amended c1_w_history c1_w_results
